import Mathlib

/-!
# Carpooling matching algorithm: a shallow embedding

This file embeds the core of `simulation.py` (the Optimized Carpooling
Matching Algorithm repository) in Lean 4 and proves the testable properties
of its specification against that embedding.

Modelling decisions, each mirroring the Python source:

* Coordinates are pairs of rationals.  The program measures distances with
  the transcendental `haversine` function over IEEE floats; the matching
  engine only ever consumes its *outputs*, so the engine is parametrised by
  an arbitrary distance function `dist : Coord → Coord → ℚ`, and every
  theorem quantifies over it.  Exact rational arithmetic replaces floating
  point for the derived quantities (ranking keys, fares); all the claims
  under study compare or add finitely many such values.
* Mutation is modelled by state passing.  A Python object's identity is its
  position in the pool list, so the engine updates passengers by list index:
  `Candidate.idx` records the position that Python's loop variable `p`
  aliases.  Back-references (`p.matched_driver = driver`) are stored as the
  driver's `id`, the only field the program ever reads from them.
* `random.shuffle(drivers)` is an in-place permutation drawn from the global
  random generator.  The generator is external library state, so the engine
  takes the shuffle as an explicit function argument `shuffle`; a fixed seed
  of the Python generator corresponds to a fixed value of `shuffle`.
* Python's `list.sort(key=...)` is a stable sort.  A stable sort by a key is
  extensionally unique, so the embedding uses a structurally recursive
  stable insertion sort `sortCandidates`; its sortedness, stability and
  permutation properties are proved below rather than assumed.
* The human-readable rejection strings carry the same data as their format
  arguments; they are modelled by the inductive `Reason` holding those
  arguments.  Display-only fields (`name`, `vehicle_type`, cluster labels)
  play no role in any claim and are omitted.  The dictionary entry
  `reason['matched']`, which is *absent* until the final update pass writes
  it, is an `Option Bool` (`none` = key absent).
* Python integer division by zero raises `ZeroDivisionError`; the statistic
  computations that can divide by zero are embedded as `Option`-valued
  functions (`none` = the exception).
-/

/-- A latitude/longitude pair (`(lat, lon)` in the source). -/
abbrev Coord : Type := ℚ × ℚ

/-- Constant `SEARCH_RADIUS_KM = 1.0`: the 1 km pickup and drop-off radius. -/
def SEARCH_RADIUS_KM : ℚ := 1.0

/-- Constant `MAX_CAPACITY = 4`: maximum passengers per car. -/
def MAX_CAPACITY : ℤ := 4

/-- Constant `PRICE_BASE = 100`: base fare. -/
def PRICE_BASE : ℚ := 100

/-- Constant `MARKUP_PERCENT = 0.20`: markup fraction for the detour. -/
def MARKUP_PERCENT : ℚ := 0.20

/-- A driver (`class Driver(User)`): identity, coordinates, commute hour,
remaining seats and the list of assigned passengers (stored by passenger
`id`, in assignment order).  `capacity` is an integer, as in Python, so that
its non-negativity is a statement and not a typing artefact. -/
structure Driver where
  id : ℕ
  origin : Coord
  dest : Coord
  schedule : ℤ
  capacity : ℤ
  passengers : List ℕ
deriving DecidableEq, Repr

/-- One entry of a passenger's `rejection_reasons` list: the verdict of the
compatibility evaluator for one driver.  `matched` is `none` while the
`'matched'` dictionary key is absent. -/
inductive Reason where
  | originTooFar (d : ℚ)
  | destTooFar (d : ℚ)
  | scheduleMismatch (driverHour passengerHour : ℤ)
deriving DecidableEq, Repr

structure RejEntry where
  driver_id : ℕ
  pickup_distance : ℚ
  dropoff_distance : ℚ
  reasons : List Reason
  is_compatible : Bool
  matched : Option Bool
deriving DecidableEq, Repr

/-- A passenger (`class Passenger(User)`).  `matched_driver` stores the id of
the matched driver (`None` before assignment); `pickup_distance` and
`dropoff_distance` are `None` until assignment. -/
structure Passenger where
  id : ℕ
  origin : Coord
  dest : Coord
  schedule : ℤ
  matched_driver : Option ℕ
  pickup_distance : Option ℚ
  dropoff_distance : Option ℚ
  fare : ℚ
  rejection_reasons : List RejEntry
deriving DecidableEq, Repr

/-- One element of the Python `candidates` list: the tuple
`(p, dist_origin, dist_dest)` together with `idx`, the position of `p` in the
passenger pool (Python's loop variable aliases that list cell). -/
structure Candidate where
  idx : ℕ
  pass : Passenger
  dist_origin : ℚ
  dist_dest : ℚ
deriving DecidableEq, Repr

/-- One element of the returned `match_details` list.  The Python record
stores references to the driver and passenger objects; the engine and the
claims only read their `id`s through those references. -/
structure MatchRecord where
  driver_id : ℕ
  passenger_id : ℕ
  pickup_dist : ℚ
  dropoff_dist : ℚ
  fare : ℚ
deriving DecidableEq, Repr

/-- The state mutated during one driver's turn of the matching loop. -/
structure DriverTurn where
  drv : Driver
  ps : List Passenger
  det : List MatchRecord
deriving DecidableEq, Repr

/-- The full state returned by the engine: the drivers in processing order
(the list the caller's `drivers` holds after the in-place shuffle), the
passenger pool and the match records. -/
structure EngineResult where
  drivers : List Driver
  passengers : List Passenger
  details : List MatchRecord
deriving DecidableEq, Repr

/-- The compatibility verdict recorded for one driver × passenger pair in the
exhaustive first pass of `match_algorithm` (simulation.py lines 186-205):
each of the three rules appends its own reason, `is_compatible` is
`len(reasons) == 0`, and there is no `'matched'` key yet. -/
def rejEntry (dist : Coord → Coord → ℚ) (d : Driver) (p : Passenger) : RejEntry :=
  let dist_origin := dist d.origin p.origin
  let dist_dest := dist d.dest p.dest
  let reasons :=
    (if SEARCH_RADIUS_KM < dist_origin then [Reason.originTooFar dist_origin] else []) ++
    (if SEARCH_RADIUS_KM < dist_dest then [Reason.destTooFar dist_dest] else []) ++
    (if 1 < (d.schedule - p.schedule).natAbs then
      [Reason.scheduleMismatch d.schedule p.schedule] else [])
  { driver_id := d.id
    pickup_distance := dist_origin
    dropoff_distance := dist_dest
    reasons := reasons
    is_compatible := reasons.length == 0
    matched := none }

/-- The candidate tuple one driver's filter appends for the passenger at
position `i` of the pool: `candidates.append((p, dist_origin, dist_dest))`. -/
def candidateOf (dist : Coord → Coord → ℚ) (driver : Driver) (i : ℕ)
    (p : Passenger) : Candidate :=
  { idx := i
    pass := p
    dist_origin := dist driver.origin p.origin
    dist_dest := dist driver.dest p.dest }

/-- The candidate filter of one driver's turn (simulation.py lines 214-230),
mirroring the `continue` chain: skip already matched passengers, then the
pickup radius, the drop-off radius and the schedule test.  The first
argument of the recursion is the list position of the head passenger. -/
def findCandidatesAux (dist : Coord → Coord → ℚ) (driver : Driver) :
    ℕ → List Passenger → List Candidate
  | _, [] => []
  | i, p :: ps =>
    let rest := findCandidatesAux dist driver (i + 1) ps
    if p.matched_driver ≠ none then rest
    else if SEARCH_RADIUS_KM < dist driver.origin p.origin then rest
    else if SEARCH_RADIUS_KM < dist driver.dest p.dest then rest
    else if 1 < (driver.schedule - p.schedule).natAbs then rest
    else candidateOf dist driver i p :: rest

def findCandidates (dist : Coord → Coord → ℚ) (driver : Driver)
    (ps : List Passenger) : List Candidate :=
  findCandidatesAux dist driver 0 ps

/-- The ranking key of `candidates.sort(key=lambda x: x[1] + x[2])`. -/
def rankKey (c : Candidate) : ℚ := c.dist_origin + c.dist_dest

/-- Stable insertion into a run sorted by `rankKey`: the inserted candidate
(earlier in the unsorted list) goes before every candidate of equal key. -/
def insertRanked (c : Candidate) : List Candidate → List Candidate
  | [] => [c]
  | d :: ds => if rankKey c ≤ rankKey d then c :: d :: ds else d :: insertRanked c ds

/-- Stable sort by `rankKey`, the embedding of `candidates.sort(...)`
(Python's sort is stable; a stable sort by a key is extensionally unique, so
any stable sort represents it — stability is proved in
`sortCandidates_filter_rankKey` below). -/
def sortCandidates : List Candidate → List Candidate
  | [] => []
  | c :: cs => insertRanked c (sortCandidates cs)

/-- The fare `ride_cost = (PRICE_BASE / 4) + (PRICE_BASE * MARKUP_PERCENT)`
of simulation.py line 245. -/
def ride_cost : ℚ := (PRICE_BASE / 4) + (PRICE_BASE * MARKUP_PERCENT)

/-- The state of one selected passenger after assignment: matched to driver
`did`, with the candidate's distances and the fixed fare written in. -/
def matchedPassenger (did : ℕ) (c : Candidate) : Passenger :=
  { c.pass with
      matched_driver := some did
      pickup_distance := some c.dist_origin
      dropoff_distance := some c.dist_dest
      fare := ride_cost }

/-- The match record `{'driver': driver, 'passenger': p, ...}` appended for
one selected candidate. -/
def recordOf (did : ℕ) (c : Candidate) : MatchRecord :=
  { driver_id := did
    passenger_id := c.pass.id
    pickup_dist := c.dist_origin
    dropoff_dist := c.dist_dest
    fare := ride_cost }

/-- The body of `for p_tuple in selected` (simulation.py lines 237-254):
mark the passenger matched, record its distances and fare, append it to the
driver, decrement the driver's capacity, and append a match record. -/
def assignOne (t : DriverTurn) (c : Candidate) : DriverTurn :=
  { drv := { t.drv with
              passengers := t.drv.passengers ++ [(matchedPassenger t.drv.id c).id]
              capacity := t.drv.capacity - 1 }
    ps := t.ps.set c.idx (matchedPassenger t.drv.id c)
    det := t.det ++ [recordOf t.drv.id c] }

/-- One driver's turn (simulation.py lines 210-254): skip a full driver,
otherwise filter, rank, select the first `capacity` candidates and assign
them. -/
def processDriver (dist : Coord → Coord → ℚ) (ps : List Passenger)
    (det : List MatchRecord) (driver : Driver) : DriverTurn :=
  if driver.capacity = 0 then { drv := driver, ps := ps, det := det }
  else
    let candidates := findCandidates dist driver ps
    let sorted := sortCandidates candidates
    let selected := sorted.take driver.capacity.toNat
    selected.foldl assignOne { drv := driver, ps := ps, det := det }

/-- The main driver loop, processing the (already shuffled) drivers in
order and collecting their final states in that same order. -/
def runDrivers (dist : Coord → Coord → ℚ) :
    List Driver → EngineResult → EngineResult
  | [], st => st
  | d :: ds, st =>
    let t := processDriver dist st.passengers st.details d
    runDrivers dist ds
      { drivers := st.drivers ++ [t.drv], passengers := t.ps, details := t.det }

/-- The final pass of `match_algorithm` (simulation.py lines 257-263): for a
*matched* passenger only, write the `'matched'` key of every rejection entry
(`True` exactly on the matched driver's entry). -/
def updateMatchedFlags (p : Passenger) : Passenger :=
  match p.matched_driver with
  | none => p
  | some did =>
    { p with
        rejection_reasons :=
          p.rejection_reasons.map fun r => { r with matched := some (r.driver_id == did) } }

/-- The first pass of `match_algorithm` on one passenger (simulation.py
lines 184-205): reset `p.rejection_reasons` and rebuild it with one verdict
per driver, in the original pool order (this runs before the shuffle). -/
def withRejections (dist : Coord → Coord → ℚ) (drivers : List Driver)
    (p : Passenger) : Passenger :=
  { p with rejection_reasons := drivers.map fun d => rejEntry dist d p }

/-- The engine state right after the rejection pass and before the driver
loop: no driver processed yet, no match records. -/
def engineInit (dist : Coord → Coord → ℚ) (drivers : List Driver)
    (passengers : List Passenger) : EngineResult :=
  { drivers := []
    passengers := passengers.map (withRejections dist drivers)
    details := [] }

/-- The engine `match_algorithm(drivers, passengers)` (simulation.py lines 176-265):
(1) recompute every passenger's `rejection_reasons` against the drivers in
their original pool order; (2) shuffle the drivers in place; (3) run the
greedy driver loop; (4) refresh the matched flags.  `shuffle` stands for the
seeded `random.shuffle`. -/
def match_algorithm (dist : Coord → Coord → ℚ)
    (shuffle : List Driver → List Driver)
    (drivers : List Driver) (passengers : List Passenger) : EngineResult :=
  let r := runDrivers dist (shuffle drivers) (engineInit dist drivers passengers)
  { r with passengers := r.passengers.map updateMatchedFlags }

/-- The `fleet_occupancy` statistic of `export_visualization_data`
(simulation.py line 332): `sum(len(d.passengers)) / (len(drivers) *
MAX_CAPACITY) * 100`, with `none` modelling the `ZeroDivisionError` Python
raises when the denominator is zero. -/
def fleet_occupancy_viz (drivers : List Driver) : Option ℚ :=
  let denom : ℤ := (drivers.length : ℤ) * MAX_CAPACITY
  if denom = 0 then none
  else some (((drivers.map fun d => d.passengers.length).sum : ℚ) / (denom : ℚ) * 100)

/-- The matched-passenger percentage printed by `print_matching_results`
(simulation.py line 1545): `len(matched)/len(passengers)*100`, `none` when
the division raises. -/
def matched_pct (passengers : List Passenger) : Option ℚ :=
  let matched := passengers.filter fun p => p.matched_driver ≠ none
  if passengers.length = 0 then none
  else some ((matched.length : ℚ) / (passengers.length : ℚ) * 100)

/-- The unmatched-passenger percentage printed by `print_matching_results`
(simulation.py line 1546). -/
def unmatched_pct (passengers : List Passenger) : Option ℚ :=
  let unmatched := passengers.filter fun p => p.matched_driver = none
  if passengers.length = 0 then none
  else some ((unmatched.length : ℚ) / (passengers.length : ℚ) * 100)

/-- The fleet-occupancy figure of `print_matching_results` (simulation.py
lines 1556-1558): this one *is* guarded, `used / total * 100 if
total_capacity > 0 else 0`. -/
def fleet_occupancy_printed (drivers : List Driver)
    (passengers : List Passenger) : ℚ :=
  let total_capacity : ℤ := (drivers.length : ℤ) * MAX_CAPACITY
  let used : ℕ := (passengers.filter fun p => p.matched_driver ≠ none).length
  if 0 < total_capacity then (used : ℚ) / (total_capacity : ℚ) * 100 else 0

/-! ## Properties of the stable ranking sort -/

theorem mem_insertRanked {c x : Candidate} {l : List Candidate} :
    x ∈ insertRanked c l ↔ x = c ∨ x ∈ l := by
  induction l with
  | nil => simp [insertRanked]
  | cons d ds ih =>
    by_cases h : rankKey c ≤ rankKey d
    · simp [insertRanked, h]
    · simp only [insertRanked, if_neg h, List.mem_cons, ih]
      tauto

theorem insertRanked_perm (c : Candidate) (l : List Candidate) :
    (insertRanked c l).Perm (c :: l) := by
  induction l with
  | nil => simp [insertRanked]
  | cons d ds ih =>
    by_cases h : rankKey c ≤ rankKey d
    · simp [insertRanked, h]
    · simp only [insertRanked, if_neg h]
      exact (ih.cons d).trans (List.Perm.swap c d ds)

theorem sortCandidates_perm (l : List Candidate) :
    (sortCandidates l).Perm l := by
  induction l with
  | nil => simp [sortCandidates]
  | cons c cs ih =>
    exact (insertRanked_perm c (sortCandidates cs)).trans (ih.cons c)

theorem insertRanked_pairwise {c : Candidate} {l : List Candidate}
    (h : l.Pairwise fun a b => rankKey a ≤ rankKey b) :
    (insertRanked c l).Pairwise fun a b => rankKey a ≤ rankKey b := by
  induction l with
  | nil => simp [insertRanked]
  | cons d ds ih =>
    rcases List.pairwise_cons.1 h with ⟨hd, hds⟩
    by_cases hle : rankKey c ≤ rankKey d
    · rw [insertRanked, if_pos hle]
      refine List.pairwise_cons.2 ⟨?_, h⟩
      intro x hx
      rcases List.mem_cons.1 hx with rfl | hx
      · exact hle
      · exact hle.trans (hd x hx)
    · rw [insertRanked, if_neg hle]
      refine List.pairwise_cons.2 ⟨?_, ih hds⟩
      intro x hx
      rcases mem_insertRanked.1 hx with rfl | hx
      · exact le_of_lt (lt_of_not_le hle)
      · exact hd x hx

theorem sortCandidates_pairwise (l : List Candidate) :
    (sortCandidates l).Pairwise fun a b => rankKey a ≤ rankKey b := by
  induction l with
  | nil => simp [sortCandidates]
  | cons c cs ih => exact insertRanked_pairwise ih

theorem insertRanked_filter (k : ℚ) (c : Candidate) (l : List Candidate) :
    (insertRanked c l).filter (fun x => rankKey x = k) =
      if rankKey c = k then c :: l.filter (fun x => rankKey x = k)
      else l.filter (fun x => rankKey x = k) := by
  induction l with
  | nil =>
    by_cases hk : rankKey c = k <;> simp [insertRanked, List.filter, hk]
  | cons d ds ih =>
    by_cases hle : rankKey c ≤ rankKey d
    · rw [insertRanked, if_pos hle]
      by_cases hk : rankKey c = k <;> simp [List.filter_cons, hk]
    · rw [insertRanked, if_neg hle]
      have hdk : rankKey d < rankKey c := lt_of_not_le hle
      by_cases hk : rankKey c = k
      · have hdkk : ¬ rankKey d = k := by
          intro hdd
          exact absurd (hk ▸ hdd ▸ rfl : rankKey d = rankKey c) (ne_of_lt hdk)
        simp [List.filter_cons, hdkk, ih, hk]
      · by_cases hdd : rankKey d = k <;>
          simp [List.filter_cons, hdd, ih, hk]

/-- Stability of the embedded sort: for every key value, the candidates with
that key appear in the sorted list in exactly their original relative
order. -/
theorem sortCandidates_filter_rankKey (k : ℚ) (l : List Candidate) :
    (sortCandidates l).filter (fun x => rankKey x = k) =
      l.filter (fun x => rankKey x = k) := by
  induction l with
  | nil => simp [sortCandidates]
  | cons c cs ih =>
    by_cases hk : rankKey c = k <;>
      simp [sortCandidates, insertRanked_filter, hk, ih, List.filter_cons]

/-- Elements of the sorted prefix rank no worse than elements of the
dropped suffix. -/
theorem pairwise_take_drop {α : Type} {R : α → α → Prop} {l : List α}
    (h : l.Pairwise R) (n : ℕ) :
    ∀ a ∈ l.take n, ∀ b ∈ l.drop n, R a b := by
  have h' : (l.take n ++ l.drop n).Pairwise R := by
    rw [List.take_append_drop]; exact h
  exact (List.pairwise_append.1 h').2.2

/-! ## Properties of the candidate filter -/

/-- The membership conditions of the candidate filter, as a single
predicate: the passenger is still unmatched and passes the two radius tests
and the schedule test against the driver. -/
def passesFilter (dist : Coord → Coord → ℚ) (driver : Driver) (p : Passenger) : Prop :=
  p.matched_driver = none ∧
  dist driver.origin p.origin ≤ SEARCH_RADIUS_KM ∧
  dist driver.dest p.dest ≤ SEARCH_RADIUS_KM ∧
  (driver.schedule - p.schedule).natAbs ≤ 1

instance (dist : Coord → Coord → ℚ) (driver : Driver) (p : Passenger) :
    Decidable (passesFilter dist driver p) := by
  unfold passesFilter
  infer_instance

theorem findCandidatesAux_cons (dist : Coord → Coord → ℚ) (driver : Driver)
    (i : ℕ) (p : Passenger) (ps : List Passenger) :
    findCandidatesAux dist driver i (p :: ps) =
      if passesFilter dist driver p
      then candidateOf dist driver i p :: findCandidatesAux dist driver (i + 1) ps
      else findCandidatesAux dist driver (i + 1) ps := by
  by_cases h1 : p.matched_driver = none
  · by_cases h2 : dist driver.origin p.origin ≤ SEARCH_RADIUS_KM
    · by_cases h3 : dist driver.dest p.dest ≤ SEARCH_RADIUS_KM
      · by_cases h4 : (driver.schedule - p.schedule).natAbs ≤ 1
        · rw [if_pos ⟨h1, h2, h3, h4⟩]
          simp [findCandidatesAux, h1, not_lt.2 h2, not_lt.2 h3, not_lt.2 h4]
        · rw [if_neg (by simp [passesFilter, h4])]
          simp [findCandidatesAux, h1, not_lt.2 h2, not_lt.2 h3, not_le.1 h4]
      · rw [if_neg (by simp [passesFilter, h3])]
        simp [findCandidatesAux, h1, not_lt.2 h2, not_le.1 h3]
    · rw [if_neg (by simp [passesFilter, h2])]
      simp [findCandidatesAux, h1, not_le.1 h2]
  · rw [if_neg (by simp [passesFilter, h1])]
    simp [findCandidatesAux, h1]

theorem mem_findCandidatesAux {dist : Coord → Coord → ℚ} {driver : Driver}
    {ps : List Passenger} {c : Candidate} (i : ℕ) :
    c ∈ findCandidatesAux dist driver i ps ↔
      ∃ j, ∃ h : j < ps.length,
        passesFilter dist driver (ps.get ⟨j, h⟩) ∧
        c = candidateOf dist driver (i + j) (ps.get ⟨j, h⟩) := by
  induction ps generalizing i with
  | nil => simp [findCandidatesAux]
  | cons p ps ih =>
    rw [findCandidatesAux_cons]
    by_cases hp : passesFilter dist driver p
    · rw [if_pos hp]
      constructor
      · intro hc
        rcases List.mem_cons.1 hc with rfl | hc'
        · exact ⟨0, Nat.succ_pos _, by simpa [List.get] using hp, by simp [List.get]⟩
        · rcases (ih (i + 1)).1 hc' with ⟨j, hj, hpass, hceq⟩
          refine ⟨j + 1, Nat.succ_lt_succ hj, by simpa [List.get] using hpass, ?_⟩
          rw [hceq]
          simp [List.get, Nat.add_comm, Nat.add_assoc, Nat.add_left_comm]
      · rintro ⟨j, hj, hpass, hceq⟩
        match j with
        | 0 =>
          have hc0 : c = candidateOf dist driver i p := by simpa [List.get] using hceq
          rw [hc0]
          exact List.mem_cons_self _ _
        | j + 1 =>
          have hj' : j < ps.length := Nat.lt_of_succ_lt_succ hj
          refine List.mem_cons_of_mem _ ((ih (i + 1)).2 ⟨j, hj', ?_, ?_⟩)
          · simpa [List.get] using hpass
          · rw [hceq]
            simp [List.get, Nat.add_comm, Nat.add_assoc, Nat.add_left_comm]
    · rw [if_neg hp]
      rw [ih (i + 1)]
      constructor
      · rintro ⟨j, hj, hpass, hceq⟩
        refine ⟨j + 1, Nat.succ_lt_succ hj, by simpa [List.get] using hpass, ?_⟩
        rw [hceq]
        simp [List.get, Nat.add_comm, Nat.add_assoc, Nat.add_left_comm]
      · rintro ⟨j, hj, hpass, hceq⟩
        match j with
        | 0 => exact absurd (by simpa [List.get] using hpass) hp
        | j + 1 =>
          have hj' : j < ps.length := Nat.lt_of_succ_lt_succ hj
          refine ⟨j, hj', by simpa [List.get] using hpass, ?_⟩
          rw [hceq]
          simp [List.get, Nat.add_comm, Nat.add_assoc, Nat.add_left_comm]

theorem le_idx_of_mem_findCandidatesAux {dist : Coord → Coord → ℚ}
    {driver : Driver} {ps : List Passenger} {c : Candidate} {i : ℕ}
    (hc : c ∈ findCandidatesAux dist driver i ps) : i ≤ c.idx := by
  rcases (mem_findCandidatesAux i).1 hc with ⟨j, hj, _, rfl⟩
  simp [candidateOf]

theorem findCandidatesAux_pairwise_idx
    (dist : Coord → Coord → ℚ) (driver : Driver) (i : ℕ) (ps : List Passenger) :
    (findCandidatesAux dist driver i ps).Pairwise fun a b => a.idx < b.idx := by
  induction ps generalizing i with
  | nil => simp [findCandidatesAux]
  | cons p ps ih =>
    rw [findCandidatesAux_cons]
    by_cases hp : passesFilter dist driver p
    · rw [if_pos hp]
      refine List.pairwise_cons.2 ⟨?_, ih (i + 1)⟩
      intro c hc
      have := le_idx_of_mem_findCandidatesAux hc
      simp only [candidateOf]
      omega
    · rw [if_neg hp]
      exact ih (i + 1)

theorem idx_lt_of_mem_findCandidates {dist : Coord → Coord → ℚ}
    {driver : Driver} {ps : List Passenger} {c : Candidate}
    (hc : c ∈ findCandidates dist driver ps) : c.idx < ps.length := by
  rcases (mem_findCandidatesAux 0).1 hc with ⟨j, hj, _, rfl⟩
  simpa [candidateOf] using hj

theorem mem_findCandidates {dist : Coord → Coord → ℚ} {driver : Driver}
    {ps : List Passenger} {c : Candidate} :
    c ∈ findCandidates dist driver ps ↔
      ∃ j, ∃ h : j < ps.length,
        passesFilter dist driver (ps.get ⟨j, h⟩) ∧
        c = candidateOf dist driver j (ps.get ⟨j, h⟩) := by
  rw [findCandidates, mem_findCandidatesAux 0]
  simp

theorem findCandidates_idx_nodup (dist : Coord → Coord → ℚ) (driver : Driver)
    (ps : List Passenger) :
    ((findCandidates dist driver ps).map fun c => c.idx).Nodup := by
  have h := findCandidatesAux_pairwise_idx dist driver 0 ps
  have h' : ((findCandidates dist driver ps).map fun c => c.idx).Pairwise (· < ·) :=
    List.pairwise_map.2 h
  exact List.Pairwise.imp ne_of_lt h'

/-! ## Closed forms for one driver's assignment loop -/

@[simp] theorem matchedPassenger_id (did : ℕ) (c : Candidate) :
    (matchedPassenger did c).id = c.pass.id := rfl

@[simp] theorem matchedPassenger_origin (did : ℕ) (c : Candidate) :
    (matchedPassenger did c).origin = c.pass.origin := rfl

@[simp] theorem matchedPassenger_dest (did : ℕ) (c : Candidate) :
    (matchedPassenger did c).dest = c.pass.dest := rfl

@[simp] theorem matchedPassenger_schedule (did : ℕ) (c : Candidate) :
    (matchedPassenger did c).schedule = c.pass.schedule := rfl

@[simp] theorem matchedPassenger_matched_driver (did : ℕ) (c : Candidate) :
    (matchedPassenger did c).matched_driver = some did := rfl

@[simp] theorem matchedPassenger_fare (did : ℕ) (c : Candidate) :
    (matchedPassenger did c).fare = ride_cost := rfl

@[simp] theorem matchedPassenger_rejection_reasons (did : ℕ) (c : Candidate) :
    (matchedPassenger did c).rejection_reasons = c.pass.rejection_reasons := rfl

@[simp] theorem assignOne_drv_id (t : DriverTurn) (c : Candidate) :
    (assignOne t c).drv.id = t.drv.id := rfl

@[simp] theorem assignOne_ps (t : DriverTurn) (c : Candidate) :
    (assignOne t c).ps = t.ps.set c.idx (matchedPassenger t.drv.id c) := rfl

@[simp] theorem assignOne_det (t : DriverTurn) (c : Candidate) :
    (assignOne t c).det = t.det ++ [recordOf t.drv.id c] := rfl

theorem foldl_assignOne_drv (sel : List Candidate) (t : DriverTurn) :
    (sel.foldl assignOne t).drv =
      { t.drv with
          capacity := t.drv.capacity - sel.length
          passengers := t.drv.passengers ++ sel.map fun c => c.pass.id } := by
  induction sel generalizing t with
  | nil => simp
  | cons c cs ih =>
    rw [List.foldl_cons, ih]
    simp only [assignOne, matchedPassenger_id, List.map_cons, List.length_cons]
    refine congrArg₂ (fun a b => { t.drv with capacity := a, passengers := b }) ?_ ?_
    · push_cast
      ring
    · simp

theorem foldl_assignOne_det (sel : List Candidate) (t : DriverTurn) :
    (sel.foldl assignOne t).det = t.det ++ sel.map (recordOf t.drv.id) := by
  induction sel generalizing t with
  | nil => simp
  | cons c cs ih =>
    rw [List.foldl_cons, ih]
    simp [List.append_assoc]

theorem foldl_assignOne_ps_length (sel : List Candidate) (t : DriverTurn) :
    (sel.foldl assignOne t).ps.length = t.ps.length := by
  induction sel generalizing t with
  | nil => rfl
  | cons c cs ih =>
    rw [List.foldl_cons, ih]
    simp

theorem foldl_assignOne_ps_get (sel : List Candidate) (t : DriverTurn)
    (hnd : (sel.map fun c => c.idx).Nodup)
    (hlt : ∀ c ∈ sel, c.idx < t.ps.length)
    (j : ℕ) (hj : j < t.ps.length)
    (hj2 : j < (sel.foldl assignOne t).ps.length) :
    (sel.foldl assignOne t).ps.get ⟨j, hj2⟩ =
      match sel.find? (fun c => c.idx == j) with
      | some c => matchedPassenger t.drv.id c
      | none => t.ps.get ⟨j, hj⟩ := by
  induction sel generalizing t with
  | nil => simp [List.find?]
  | cons c cs ih =>
    have hlen : (assignOne t c).ps.length = t.ps.length := by simp
    have hnd' : (cs.map fun x => x.idx).Nodup := (List.nodup_cons.1 hnd).2
    have hlt' : ∀ x ∈ cs, x.idx < (assignOne t c).ps.length := by
      intro x hx
      rw [hlen]
      exact hlt x (List.mem_cons_of_mem _ hx)
    have hjc : j < (assignOne t c).ps.length := by rw [hlen]; exact hj
    refine Eq.trans (ih (assignOne t c) hnd' hlt' hjc hj2) ?_
    by_cases hcj : c.idx = j
    · have hfind : List.find? (fun x => x.idx == j) (c :: cs) = some c := by
        simp [List.find?, hcj]
      have hnone : List.find? (fun x => x.idx == j) cs = none := by
        rw [List.find?_eq_none]
        intro x hx
        have : x.idx ∈ cs.map fun y => y.idx := List.mem_map_of_mem _ hx
        intro hxj
        rcases List.nodup_cons.1 hnd with ⟨hni, _⟩
        apply hni
        have hxx : x.idx = c.idx := by
          have hxj2 : x.idx = j := by simpa using hxj
          rw [hxj2, hcj]
        show c.idx ∈ List.map (fun y => y.idx) cs
        exact hxx ▸ this
      rw [hfind, hnone]
      simp only [assignOne_ps]
      have := List.getElem_set (l := t.ps) (m := c.idx)
        (a := matchedPassenger t.drv.id c) (n := j) (h := by simpa using hjc)
      simp only [List.get_eq_getElem]
      rw [this, if_pos hcj]
    · have hfalse : (c.idx == j) = false := by simpa using hcj
      have hfind : List.find? (fun x => x.idx == j) (c :: cs) =
          List.find? (fun x => x.idx == j) cs := by
        simp [List.find?, hfalse]
      rw [hfind]
      cases hcs : List.find? (fun x => x.idx == j) cs with
      | some c' => rfl
      | none =>
        simp only [assignOne_ps]
        have := List.getElem_set (l := t.ps) (m := c.idx)
          (a := matchedPassenger t.drv.id c) (n := j) (h := by simpa using hjc)
        simp only [List.get_eq_getElem]
        rw [this, if_neg hcj]

/-! ## One driver's turn -/

/-- The `selected` list of a driver's turn: the first `capacity` candidates
of the ranked candidate list. -/
def selectedFor (dist : Coord → Coord → ℚ) (driver : Driver)
    (ps : List Passenger) : List Candidate :=
  (sortCandidates (findCandidates dist driver ps)).take driver.capacity.toNat

theorem processDriver_pos (dist : Coord → Coord → ℚ) (ps : List Passenger)
    (det : List MatchRecord) (driver : Driver) (h : driver.capacity ≠ 0) :
    processDriver dist ps det driver =
      (selectedFor dist driver ps).foldl assignOne
        { drv := driver, ps := ps, det := det } := by
  simp [processDriver, selectedFor, h]

theorem processDriver_zero (dist : Coord → Coord → ℚ) (ps : List Passenger)
    (det : List MatchRecord) (driver : Driver) (h : driver.capacity = 0) :
    processDriver dist ps det driver = { drv := driver, ps := ps, det := det } := by
  simp [processDriver, h]

theorem mem_candidates_of_mem_selectedFor {dist : Coord → Coord → ℚ}
    {driver : Driver} {ps : List Passenger} {c : Candidate}
    (hc : c ∈ selectedFor dist driver ps) : c ∈ findCandidates dist driver ps := by
  have h1 : c ∈ sortCandidates (findCandidates dist driver ps) :=
    List.mem_of_mem_take hc
  exact (sortCandidates_perm _).mem_iff.1 h1

theorem selectedFor_idx_nodup (dist : Coord → Coord → ℚ) (driver : Driver)
    (ps : List Passenger) :
    ((selectedFor dist driver ps).map fun c => c.idx).Nodup := by
  have hperm : ((sortCandidates (findCandidates dist driver ps)).map fun c => c.idx).Perm
      ((findCandidates dist driver ps).map fun c => c.idx) :=
    (sortCandidates_perm _).map _
  have hnd : ((sortCandidates (findCandidates dist driver ps)).map fun c => c.idx).Nodup :=
    hperm.nodup_iff.2 (findCandidates_idx_nodup dist driver ps)
  have hsub : ((selectedFor dist driver ps).map fun c => c.idx).Sublist
      ((sortCandidates (findCandidates dist driver ps)).map fun c => c.idx) := by
    rw [selectedFor, List.map_take]
    exact List.take_sublist _ _
  exact hnd.sublist hsub

theorem selectedFor_idx_lt {dist : Coord → Coord → ℚ} {driver : Driver}
    {ps : List Passenger} {c : Candidate} (hc : c ∈ selectedFor dist driver ps) :
    c.idx < ps.length :=
  idx_lt_of_mem_findCandidates (mem_candidates_of_mem_selectedFor hc)

theorem selectedFor_length (dist : Coord → Coord → ℚ) (driver : Driver)
    (ps : List Passenger) :
    (selectedFor dist driver ps).length =
      min driver.capacity.toNat (findCandidates dist driver ps).length := by
  rw [selectedFor, List.length_take, (sortCandidates_perm _).length_eq]

theorem selectedFor_length_le (dist : Coord → Coord → ℚ) (driver : Driver)
    (ps : List Passenger) :
    (selectedFor dist driver ps).length ≤ driver.capacity.toNat := by
  rw [selectedFor_length]
  exact Nat.min_le_left _ _

/-! ## Frame facts about the passenger pool -/

/-- The fields of a passenger the engine never writes: identity, the two
coordinates and the schedule (assignment touches only `matched_driver`, the
two recorded distances, `fare` and — in the flag pass — the rejection
entries). -/
def coreOf (p : Passenger) : ℕ × Coord × Coord × ℤ :=
  (p.id, p.origin, p.dest, p.schedule)

/-- The pool `ps` is positionally the same population as `ps0`: every
passenger still has its original identity, coordinates and schedule. -/
def PoolCore (ps0 ps : List Passenger) : Prop :=
  ps.map coreOf = ps0.map coreOf

theorem PoolCore.refl (ps : List Passenger) : PoolCore ps ps := rfl

theorem PoolCore.length_eq {ps0 ps : List Passenger} (h : PoolCore ps0 ps) :
    ps.length = ps0.length := by
  have := congrArg List.length h
  simpa using this

theorem PoolCore.get_core {ps0 ps : List Passenger} (h : PoolCore ps0 ps)
    (j : ℕ) (h1 : j < ps.length) (h0 : j < ps0.length) :
    coreOf (ps.get ⟨j, h1⟩) = coreOf (ps0.get ⟨j, h0⟩) := by
  have h2 : (ps.map coreOf)[j]? = (ps0.map coreOf)[j]? := by rw [h]
  rw [List.getElem?_map, List.getElem?_map, List.getElem?_eq_getElem h1,
    List.getElem?_eq_getElem h0] at h2
  simpa [List.get_eq_getElem] using h2

theorem coreOf_matchedPassenger (did : ℕ) (c : Candidate) :
    coreOf (matchedPassenger did c) = coreOf c.pass := rfl

theorem PoolCore.set {ps0 ps : List Passenger} (h : PoolCore ps0 ps)
    {i : ℕ} (hi : i < ps.length) {p : Passenger}
    (hp : coreOf p = coreOf (ps.get ⟨i, hi⟩)) :
    PoolCore ps0 (ps.set i p) := by
  unfold PoolCore at h ⊢
  rw [← h, List.map_set]
  apply List.ext_getElem
  · simp
  · intro n h1 h2
    by_cases hn : i = n
    · subst hn
      rw [List.getElem_set]
      simp [hp, List.get_eq_getElem]
    · rw [List.getElem_set, if_neg hn]

/-- Through one driver's assignment loop the pool keeps its population: the
loop only rewrites selected positions with `matchedPassenger`, which has the
same core. -/
theorem foldl_assignOne_poolCore (sel : List Candidate) (t : DriverTurn)
    (ps0 : List Passenger) (h : PoolCore ps0 t.ps)
    (hsel : ∀ c ∈ sel, ∃ hi : c.idx < ps0.length,
      coreOf c.pass = coreOf (ps0.get ⟨c.idx, hi⟩)) :
    PoolCore ps0 (sel.foldl assignOne t).ps := by
  induction sel generalizing t with
  | nil => exact h
  | cons c cs ih =>
    rw [List.foldl_cons]
    rcases hsel c (List.mem_cons_self _ _) with ⟨hi0, hcore⟩
    have hi : c.idx < t.ps.length := by rw [h.length_eq]; exact hi0
    have h2 : PoolCore ps0 (assignOne t c).ps := by
      rw [assignOne_ps]
      refine h.set hi ?_
      rw [coreOf_matchedPassenger, hcore]
      exact (h.get_core c.idx hi hi0).symm
    exact ih (assignOne t c) h2
      (fun x hx => hsel x (List.mem_cons_of_mem _ hx))

/-- A property of individual passengers survives the assignment loop when it
holds for the pool and for every selected passenger's assigned state. -/
theorem foldl_assignOne_pool_forall {Φ : Passenger → Prop}
    (sel : List Candidate) (t : DriverTurn)
    (hall : ∀ p ∈ t.ps, Φ p)
    (hsel : ∀ c ∈ sel, Φ (matchedPassenger t.drv.id c)) :
    ∀ p ∈ (sel.foldl assignOne t).ps, Φ p := by
  induction sel generalizing t with
  | nil => exact hall
  | cons c cs ih =>
    rw [List.foldl_cons]
    refine ih (assignOne t c) ?_ ?_
    · intro p hp
      rcases List.mem_or_eq_of_mem_set hp with hp' | rfl
      · exact hall p hp'
      · exact hsel c (List.mem_cons_self _ _)
    · intro x hx
      have : (assignOne t c).drv.id = t.drv.id := rfl
      rw [this]
      exact hsel x (List.mem_cons_of_mem _ hx)

/-! ## What one driver's turn does to each component of the state -/

theorem find?_idx_eq_some_of_mem {sel : List Candidate}
    (hnd : (sel.map fun c => c.idx).Nodup) {c : Candidate} (hc : c ∈ sel) :
    sel.find? (fun x => x.idx == c.idx) = some c := by
  induction sel with
  | nil => cases hc
  | cons d ds ih =>
    rcases List.mem_cons.1 hc with rfl | hc2
    · simp [List.find?]
    · have hne : d.idx ≠ c.idx := by
        intro he
        apply (List.nodup_cons.1 hnd).1
        show d.idx ∈ List.map (fun y => y.idx) ds
        rw [he]
        exact List.mem_map_of_mem _ hc2
      have hfalse : (d.idx == c.idx) = false := by simpa using hne
      simp [List.find?, hfalse, ih (List.nodup_cons.1 hnd).2 hc2]

theorem selectedFor_spec {dist : Coord → Coord → ℚ} {driver : Driver}
    {ps : List Passenger} {c : Candidate} (hc : c ∈ selectedFor dist driver ps) :
    ∃ hj : c.idx < ps.length,
      c.pass = ps.get ⟨c.idx, hj⟩ ∧
      passesFilter dist driver (ps.get ⟨c.idx, hj⟩) ∧
      c.dist_origin = dist driver.origin (ps.get ⟨c.idx, hj⟩).origin ∧
      c.dist_dest = dist driver.dest (ps.get ⟨c.idx, hj⟩).dest := by
  have h1 := mem_candidates_of_mem_selectedFor hc
  rcases mem_findCandidates.1 h1 with ⟨j, hj, hpass, rfl⟩
  exact ⟨hj, rfl, hpass, rfl, rfl⟩

theorem processDriver_ps_length (dist : Coord → Coord → ℚ) (ps : List Passenger)
    (det : List MatchRecord) (driver : Driver) :
    (processDriver dist ps det driver).ps.length = ps.length := by
  by_cases h : driver.capacity = 0
  · rw [processDriver_zero dist ps det driver h]
  · rw [processDriver_pos dist ps det driver h]
    exact foldl_assignOne_ps_length _ _

theorem processDriver_drv (dist : Coord → Coord → ℚ) (ps : List Passenger)
    (det : List MatchRecord) (driver : Driver) :
    (processDriver dist ps det driver).drv =
      if driver.capacity = 0 then driver
      else { driver with
              capacity := driver.capacity - (selectedFor dist driver ps).length
              passengers := driver.passengers ++
                (selectedFor dist driver ps).map fun c => c.pass.id } := by
  by_cases h : driver.capacity = 0
  · rw [processDriver_zero dist ps det driver h, if_pos h]
  · rw [processDriver_pos dist ps det driver h, if_neg h]
    exact foldl_assignOne_drv _ _

theorem processDriver_drv_id (dist : Coord → Coord → ℚ) (ps : List Passenger)
    (det : List MatchRecord) (driver : Driver) :
    (processDriver dist ps det driver).drv.id = driver.id := by
  rw [processDriver_drv]
  by_cases h : driver.capacity = 0 <;> simp [h]

theorem processDriver_det (dist : Coord → Coord → ℚ) (ps : List Passenger)
    (det : List MatchRecord) (driver : Driver) :
    (processDriver dist ps det driver).det =
      det ++ (if driver.capacity = 0 then []
        else (selectedFor dist driver ps).map (recordOf driver.id)) := by
  by_cases h : driver.capacity = 0
  · rw [processDriver_zero dist ps det driver h, if_pos h]
    simp
  · rw [processDriver_pos dist ps det driver h, if_neg h]
    exact foldl_assignOne_det _ _

/-- Each pool position after a driver's turn: untouched, or — for a selected
candidate's position — overwritten with that candidate's matched state. -/
theorem processDriver_ps_get (dist : Coord → Coord → ℚ) (ps : List Passenger)
    (det : List MatchRecord) (driver : Driver) (j : ℕ) (hj : j < ps.length)
    (hj2 : j < (processDriver dist ps det driver).ps.length) :
    (processDriver dist ps det driver).ps.get ⟨j, hj2⟩ = ps.get ⟨j, hj⟩ ∨
    ∃ c ∈ selectedFor dist driver ps, c.idx = j ∧
      (processDriver dist ps det driver).ps.get ⟨j, hj2⟩ =
        matchedPassenger driver.id c := by
  by_cases h : driver.capacity = 0
  · left
    have he := processDriver_zero dist ps det driver h
    revert hj2
    rw [he]
    intro hj2
    rfl
  · have he := processDriver_pos dist ps det driver h
    revert hj2
    rw [he]
    intro hj2
    have hget := foldl_assignOne_ps_get (selectedFor dist driver ps)
      { drv := driver, ps := ps, det := det }
      (selectedFor_idx_nodup dist driver ps)
      (fun c hc => selectedFor_idx_lt hc) j hj hj2
    cases hfind : (selectedFor dist driver ps).find? (fun c => c.idx == j) with
    | none =>
      rw [hfind] at hget
      left
      exact hget
    | some c =>
      rw [hfind] at hget
      right
      refine ⟨c, List.mem_of_find?_eq_some hfind, ?_, hget⟩
      have := List.find?_some hfind
      simpa using this

/-- A selected candidate's position after the turn holds exactly that
candidate's matched state. -/
theorem processDriver_ps_get_selected (dist : Coord → Coord → ℚ)
    (ps : List Passenger) (det : List MatchRecord) (driver : Driver)
    (h : driver.capacity ≠ 0) {c : Candidate} (hc : c ∈ selectedFor dist driver ps)
    (hj2 : c.idx < (processDriver dist ps det driver).ps.length) :
    (processDriver dist ps det driver).ps.get ⟨c.idx, hj2⟩ =
      matchedPassenger driver.id c := by
  have he := processDriver_pos dist ps det driver h
  revert hj2
  rw [he]
  intro hj2
  rcases selectedFor_spec hc with ⟨hj, _, _, _, _⟩
  have hget := foldl_assignOne_ps_get (selectedFor dist driver ps)
    { drv := driver, ps := ps, det := det }
    (selectedFor_idx_nodup dist driver ps)
    (fun x hx => selectedFor_idx_lt hx) c.idx hj hj2
  rw [find?_idx_eq_some_of_mem (selectedFor_idx_nodup dist driver ps) hc] at hget
  exact hget

theorem processDriver_poolCore {dist : Coord → Coord → ℚ} {ps0 ps : List Passenger}
    (det : List MatchRecord) (driver : Driver) (h : PoolCore ps0 ps) :
    PoolCore ps0 (processDriver dist ps det driver).ps := by
  by_cases hcap : driver.capacity = 0
  · rw [processDriver_zero dist ps det driver hcap]
    exact h
  · rw [processDriver_pos dist ps det driver hcap]
    refine foldl_assignOne_poolCore _ _ _ h ?_
    intro c hc
    rcases selectedFor_spec hc with ⟨hj, hpassEq, _, _, _⟩
    have hj0 : c.idx < ps0.length := by rw [← h.length_eq]; exact hj
    refine ⟨hj0, ?_⟩
    rw [hpassEq]
    exact h.get_core c.idx hj hj0

theorem processDriver_pool_forall {Φ : Passenger → Prop}
    (dist : Coord → Coord → ℚ) (ps : List Passenger) (det : List MatchRecord)
    (driver : Driver) (hall : ∀ p ∈ ps, Φ p)
    (hmp : ∀ c ∈ selectedFor dist driver ps, Φ (matchedPassenger driver.id c)) :
    ∀ p ∈ (processDriver dist ps det driver).ps, Φ p := by
  by_cases hcap : driver.capacity = 0
  · rw [processDriver_zero dist ps det driver hcap]
    exact hall
  · rw [processDriver_pos dist ps det driver hcap]
    exact foldl_assignOne_pool_forall _ _ hall hmp

/-- A still-assigned `matched_driver` value survives a driver's turn: the
candidate filter only ever selects unmatched positions. -/
theorem processDriver_matched_preserve (dist : Coord → Coord → ℚ)
    (ps : List Passenger) (det : List MatchRecord) (driver : Driver)
    (j : ℕ) (hj : j < ps.length)
    (hj2 : j < (processDriver dist ps det driver).ps.length) (x : ℕ)
    (hx : (ps.get ⟨j, hj⟩).matched_driver = some x) :
    ((processDriver dist ps det driver).ps.get ⟨j, hj2⟩).matched_driver = some x := by
  rcases processDriver_ps_get dist ps det driver j hj hj2 with heq | ⟨c, hcsel, hcidx, heq⟩
  · rw [heq]
    exact hx
  · exfalso
    rcases selectedFor_spec hcsel with ⟨hcj, hpassEq, hpass, _, _⟩
    subst hcidx
    have h0 : (ps.get ⟨c.idx, hj⟩).matched_driver = none := hpass.1
    rw [h0] at hx
    cases hx

/-- A position that is matched never becomes unmatched during a turn. -/
theorem processDriver_matched_ne_none (dist : Coord → Coord → ℚ)
    (ps : List Passenger) (det : List MatchRecord) (driver : Driver)
    (j : ℕ) (hj : j < ps.length)
    (hj2 : j < (processDriver dist ps det driver).ps.length)
    (hx : (ps.get ⟨j, hj⟩).matched_driver ≠ none) :
    ((processDriver dist ps det driver).ps.get ⟨j, hj2⟩).matched_driver ≠ none := by
  rcases processDriver_ps_get dist ps det driver j hj hj2 with heq | ⟨c, hcsel, hcidx, heq⟩
  · rw [heq]
    exact hx
  · rw [heq]
    simp

/-! ## The driver loop -/

theorem runDrivers_ps_length (dist : Coord → Coord → ℚ) (ds : List Driver)
    (st : EngineResult) :
    (runDrivers dist ds st).passengers.length = st.passengers.length := by
  induction ds generalizing st with
  | nil => rfl
  | cons d ds ih =>
    rw [runDrivers, ih]
    exact processDriver_ps_length _ _ _ _

theorem runDrivers_poolCore {dist : Coord → Coord → ℚ} {ps0 : List Passenger}
    (ds : List Driver) (st : EngineResult) (h : PoolCore ps0 st.passengers) :
    PoolCore ps0 (runDrivers dist ds st).passengers := by
  induction ds generalizing st with
  | nil => exact h
  | cons d ds ih =>
    rw [runDrivers]
    exact ih _ (processDriver_poolCore _ _ h)

theorem runDrivers_pool_forall {Φ : Passenger → Prop}
    (dist : Coord → Coord → ℚ) (ds : List Driver) (st : EngineResult)
    (hall : ∀ p ∈ st.passengers, Φ p)
    (hstep : ∀ (did : ℕ) (c : Candidate), Φ c.pass → Φ (matchedPassenger did c)) :
    ∀ p ∈ (runDrivers dist ds st).passengers, Φ p := by
  induction ds generalizing st with
  | nil => exact hall
  | cons d ds ih =>
    rw [runDrivers]
    refine ih _ ?_
    refine processDriver_pool_forall _ _ _ _ hall ?_
    intro c hc
    rcases selectedFor_spec hc with ⟨hj, hpassEq, _, _, _⟩
    refine hstep d.id c (hall c.pass ?_)
    rw [hpassEq]
    exact List.get_mem _ _ _

theorem runDrivers_matched_preserve (dist : Coord → Coord → ℚ)
    (ds : List Driver) (st : EngineResult) (j : ℕ)
    (hj : j < st.passengers.length)
    (hj2 : j < (runDrivers dist ds st).passengers.length) (x : ℕ)
    (hx : (st.passengers.get ⟨j, hj⟩).matched_driver = some x) :
    ((runDrivers dist ds st).passengers.get ⟨j, hj2⟩).matched_driver = some x := by
  induction ds generalizing st with
  | nil => exact hx
  | cons d ds ih =>
    simp only [runDrivers] at hj2 ⊢
    have hjd : j < (processDriver dist st.passengers st.details d).ps.length := by
      rw [processDriver_ps_length]
      exact hj
    exact ih _ hjd hj2 (processDriver_matched_preserve _ _ _ _ j hj hjd x hx)

theorem runDrivers_matched_ne_none (dist : Coord → Coord → ℚ)
    (ds : List Driver) (st : EngineResult) (j : ℕ)
    (hj : j < st.passengers.length)
    (hj2 : j < (runDrivers dist ds st).passengers.length)
    (hx : (st.passengers.get ⟨j, hj⟩).matched_driver ≠ none) :
    ((runDrivers dist ds st).passengers.get ⟨j, hj2⟩).matched_driver ≠ none := by
  induction ds generalizing st with
  | nil => exact hx
  | cons d ds ih =>
    simp only [runDrivers] at hj2 ⊢
    have hjd : j < (processDriver dist st.passengers st.details d).ps.length := by
      rw [processDriver_ps_length]
      exact hj
    exact ih _ hjd hj2 (processDriver_matched_ne_none _ _ _ _ j hj hjd hx)

theorem runDrivers_drivers_map_id (dist : Coord → Coord → ℚ) (ds : List Driver)
    (st : EngineResult) :
    ((runDrivers dist ds st).drivers).map (fun d => d.id) =
      st.drivers.map (fun d => d.id) ++ ds.map (fun d => d.id) := by
  induction ds generalizing st with
  | nil => simp [runDrivers]
  | cons d ds ih =>
    rw [runDrivers, ih]
    simp [processDriver_drv_id]

/-! ## Soundness of match records -/

theorem coreOf_eq_iff {p q : Passenger} :
    coreOf p = coreOf q ↔
      p.id = q.id ∧ p.origin = q.origin ∧ p.dest = q.dest ∧ p.schedule = q.schedule := by
  simp [coreOf, Prod.ext_iff]

theorem PoolCore.ids_eq {ps0 ps : List Passenger} (h : PoolCore ps0 ps) :
    ps.map (fun p => p.id) = ps0.map (fun p => p.id) := by
  have := congrArg (List.map Prod.fst) h
  simpa [List.map_map, Function.comp] using this

/-- What every match record appended by the engine satisfies, stated against
the original population `drivers0`/`ps0`: it names a pool driver and a pool
position, carries exactly the distances the engine measured for that pair,
those distances are inside the search radius, the schedules differ by at
most one hour, and the fare is the fixed `ride_cost`. -/
def RecordSound (dist : Coord → Coord → ℚ) (drivers0 : List Driver)
    (ps0 : List Passenger) (mr : MatchRecord) : Prop :=
  ∃ d, d ∈ drivers0 ∧ ∃ j, ∃ hj : j < ps0.length,
    mr.driver_id = d.id ∧
    mr.passenger_id = (ps0.get ⟨j, hj⟩).id ∧
    mr.pickup_dist = dist d.origin (ps0.get ⟨j, hj⟩).origin ∧
    mr.dropoff_dist = dist d.dest (ps0.get ⟨j, hj⟩).dest ∧
    mr.pickup_dist ≤ SEARCH_RADIUS_KM ∧
    mr.dropoff_dist ≤ SEARCH_RADIUS_KM ∧
    (d.schedule - (ps0.get ⟨j, hj⟩).schedule).natAbs ≤ 1 ∧
    mr.fare = ride_cost

theorem processDriver_recordSound {dist : Coord → Coord → ℚ}
    {drivers0 : List Driver} {ps0 ps : List Passenger}
    (det : List MatchRecord) (driver : Driver)
    (h : PoolCore ps0 ps) (hd : driver ∈ drivers0)
    (hall : ∀ mr ∈ det, RecordSound dist drivers0 ps0 mr) :
    ∀ mr ∈ (processDriver dist ps det driver).det,
      RecordSound dist drivers0 ps0 mr := by
  intro mr hmr
  rw [processDriver_det] at hmr
  rcases List.mem_append.1 hmr with hold | hnew
  · exact hall mr hold
  · by_cases hcap : driver.capacity = 0
    · rw [if_pos hcap] at hnew
      cases hnew
    · rw [if_neg hcap] at hnew
      rcases List.mem_map.1 hnew with ⟨c, hc, rfl⟩
      rcases selectedFor_spec hc with ⟨hj, hpassEq, hpass, hdo, hdd⟩
      have hj0 : c.idx < ps0.length := by rw [← h.length_eq]; exact hj
      have hcore := coreOf_eq_iff.1 (h.get_core c.idx hj hj0)
      refine ⟨driver, hd, c.idx, hj0, rfl, ?_, ?_, ?_, ?_, ?_, ?_, rfl⟩
      · show c.pass.id = (ps0.get ⟨c.idx, hj0⟩).id
        rw [hpassEq]
        exact hcore.1
      · show c.dist_origin = dist driver.origin (ps0.get ⟨c.idx, hj0⟩).origin
        rw [hdo, hcore.2.1]
      · show c.dist_dest = dist driver.dest (ps0.get ⟨c.idx, hj0⟩).dest
        rw [hdd, hcore.2.2.1]
      · show c.dist_origin ≤ SEARCH_RADIUS_KM
        rw [hdo]
        exact hpass.2.1
      · show c.dist_dest ≤ SEARCH_RADIUS_KM
        rw [hdd]
        exact hpass.2.2.1
      · rw [← hcore.2.2.2]
        exact hpass.2.2.2

theorem runDrivers_recordSound {dist : Coord → Coord → ℚ}
    {drivers0 : List Driver} {ps0 : List Passenger}
    (ds : List Driver) (st : EngineResult)
    (hds : ∀ d ∈ ds, d ∈ drivers0)
    (hpc : PoolCore ps0 st.passengers)
    (hall : ∀ mr ∈ st.details, RecordSound dist drivers0 ps0 mr) :
    ∀ mr ∈ (runDrivers dist ds st).details, RecordSound dist drivers0 ps0 mr := by
  induction ds generalizing st with
  | nil => exact hall
  | cons d ds ih =>
    simp only [runDrivers]
    refine ih _ (fun x hx => hds x (List.mem_cons_of_mem _ hx))
      (processDriver_poolCore _ _ hpc) ?_
    exact processDriver_recordSound _ _ hpc (hds d (List.mem_cons_self _ _)) hall

/-! ## The capacity invariant of one driver -/

/-- The seat-count invariant of a driver: open seats plus assigned
passengers equal the original maximum, and the seat count never goes
negative. -/
def CapInv (d : Driver) : Prop :=
  d.capacity + d.passengers.length = MAX_CAPACITY ∧ 0 ≤ d.capacity

theorem processDriver_capInv (dist : Coord → Coord → ℚ) (ps : List Passenger)
    (det : List MatchRecord) (driver : Driver) (hc : CapInv driver) :
    CapInv (processDriver dist ps det driver).drv := by
  rw [processDriver_drv]
  by_cases h : driver.capacity = 0
  · rw [if_pos h]
    exact hc
  · rw [if_neg h]
    have hlen := selectedFor_length_le dist driver ps
    rcases hc with ⟨hsum, hpos⟩
    constructor
    · show driver.capacity - (selectedFor dist driver ps).length +
        ((driver.passengers ++ (selectedFor dist driver ps).map fun c => c.pass.id).length : ℤ) =
        MAX_CAPACITY
      rw [List.length_append, List.length_map]
      push_cast
      omega
    · show 0 ≤ driver.capacity - ((selectedFor dist driver ps).length : ℤ)
      omega

theorem runDrivers_capInv (dist : Coord → Coord → ℚ) (ds : List Driver)
    (st : EngineResult) (hqueue : ∀ d ∈ ds, CapInv d)
    (hdone : ∀ d ∈ st.drivers, CapInv d) :
    ∀ d ∈ (runDrivers dist ds st).drivers, CapInv d := by
  induction ds generalizing st with
  | nil => exact hdone
  | cons d ds ih =>
    simp only [runDrivers]
    refine ih _ (fun x hx => hqueue x (List.mem_cons_of_mem _ hx)) ?_
    intro x hx
    rcases List.mem_append.1 hx with hx | hx
    · exact hdone x hx
    · have hx1 : x = (processDriver dist st.passengers st.details d).drv := by
        simpa using hx
      rw [hx1]
      exact processDriver_capInv _ _ _ _ (hqueue d (List.mem_cons_self _ _))

/-! ## Each passenger is recorded at most once -/

theorem ids_nodup_get_ne {ps : List Passenger}
    (hids : (ps.map fun p => p.id).Nodup) {i j : ℕ}
    (hi : i < ps.length) (hj : j < ps.length) (hne : i ≠ j) :
    (ps.get ⟨i, hi⟩).id ≠ (ps.get ⟨j, hj⟩).id := by
  intro he
  have hinj := List.nodup_iff_injective_get.1 hids
  have hi2 : i < (ps.map fun p => p.id).length := by simpa using hi
  have hj2 : j < (ps.map fun p => p.id).length := by simpa using hj
  have h2 : (ps.map fun p => p.id).get ⟨i, hi2⟩ = (ps.map fun p => p.id).get ⟨j, hj2⟩ := by
    simp only [List.get_eq_getElem, List.getElem_map]
    simp only [List.get_eq_getElem] at he
    exact he
  have h3 := hinj h2
  exact hne (by simpa using congrArg Fin.val h3)

/-- The invariant that makes "each passenger is matched at most once"
inductive: the recorded passenger ids are distinct, and every recorded
passenger is marked matched in the current pool. -/
def DetPid (ps : List Passenger) (det : List MatchRecord) : Prop :=
  (det.map fun mr => mr.passenger_id).Nodup ∧
  ∀ mr ∈ det, ∃ j, ∃ hj : j < ps.length,
    (ps.get ⟨j, hj⟩).id = mr.passenger_id ∧
    (ps.get ⟨j, hj⟩).matched_driver ≠ none

theorem processDriver_detPid (dist : Coord → Coord → ℚ) (ps : List Passenger)
    (det : List MatchRecord) (driver : Driver)
    (hids : (ps.map fun p => p.id).Nodup) (h : DetPid ps det) :
    DetPid (processDriver dist ps det driver).ps
      (processDriver dist ps det driver).det := by
  by_cases hcap : driver.capacity = 0
  · rw [processDriver_zero dist ps det driver hcap]
    exact h
  · have hsel_nodup : ((selectedFor dist driver ps).map fun c => c.idx).Nodup :=
      selectedFor_idx_nodup dist driver ps
    have hnewids : ((selectedFor dist driver ps).map fun c => c.pass.id).Nodup := by
      have hsel : (selectedFor dist driver ps).Nodup := hsel_nodup.of_map
      rw [List.nodup_map_iff_inj_on hsel]
      intro x hx y hy hxy
      rcases selectedFor_spec hx with ⟨hxj, hxEq, _, _, _⟩
      rcases selectedFor_spec hy with ⟨hyj, hyEq, _, _, _⟩
      by_cases hne : x.idx = y.idx
      · exact List.inj_on_of_nodup_map hsel_nodup hx hy hne
      · exfalso
        refine ids_nodup_get_ne hids hxj hyj hne ?_
        rw [← hxEq, ← hyEq]
        exact hxy
    constructor
    · rw [processDriver_det, if_neg hcap, List.map_append, List.nodup_append]
      refine ⟨h.1, ?_, ?_⟩
      · rw [List.map_map]
        have : ((fun mr => mr.passenger_id) ∘ recordOf driver.id) =
            fun c => c.pass.id := rfl
        rw [this]
        exact hnewids
      · intro a ha hb
        rcases List.mem_map.1 ha with ⟨mr, hmr, rfl⟩
        rcases h.2 mr hmr with ⟨j, hj, hjid, hjmatch⟩
        rw [List.map_map] at hb
        rcases List.mem_map.1 hb with ⟨c, hc, hcid⟩
        rcases selectedFor_spec hc with ⟨hcj, hcEq, hcpass, _, _⟩
        have hcid2 : (ps.get ⟨c.idx, hcj⟩).id = mr.passenger_id := by
          rw [← hcEq]
          exact hcid
        by_cases hne : j = c.idx
        · subst hne
          exact hjmatch (show (ps.get ⟨c.idx, hj⟩).matched_driver = none from hcpass.1)
        · exact ids_nodup_get_ne hids hj hcj hne (by rw [hjid, hcid2])
    · intro mr hmr
      rw [processDriver_det, if_neg hcap] at hmr
      rcases List.mem_append.1 hmr with hold | hnew
      · rcases h.2 mr hold with ⟨j, hj, hjid, hjmatch⟩
        have hj2 : j < (processDriver dist ps det driver).ps.length := by
          rw [processDriver_ps_length]
          exact hj
        refine ⟨j, hj2, ?_, ?_⟩
        · have hpc : PoolCore ps (processDriver dist ps det driver).ps :=
            processDriver_poolCore det driver (PoolCore.refl ps)
          have := coreOf_eq_iff.1 (hpc.get_core j hj2 hj)
          rw [this.1]
          exact hjid
        · exact processDriver_matched_ne_none dist ps det driver j hj hj2 hjmatch
      · rcases List.mem_map.1 hnew with ⟨c, hc, rfl⟩
        rcases selectedFor_spec hc with ⟨hcj, _, _, _, _⟩
        have hj2 : c.idx < (processDriver dist ps det driver).ps.length := by
          rw [processDriver_ps_length]
          exact hcj
        refine ⟨c.idx, hj2, ?_, ?_⟩
        · rw [processDriver_ps_get_selected dist ps det driver hcap hc hj2]
          rfl
        · rw [processDriver_ps_get_selected dist ps det driver hcap hc hj2]
          simp

theorem runDrivers_detPid {ps0 : List Passenger} (dist : Coord → Coord → ℚ)
    (ds : List Driver) (st : EngineResult)
    (hids0 : (ps0.map fun p => p.id).Nodup)
    (hpc : PoolCore ps0 st.passengers)
    (h : DetPid st.passengers st.details) :
    DetPid (runDrivers dist ds st).passengers (runDrivers dist ds st).details := by
  induction ds generalizing st with
  | nil => exact h
  | cons d ds ih =>
    simp only [runDrivers]
    refine ih _ (processDriver_poolCore _ _ hpc) ?_
    refine processDriver_detPid dist st.passengers st.details d ?_ h
    rw [hpc.ids_eq]
    exact hids0

/-! ## The wrapper passes -/

@[simp] theorem withRejections_core (dist : Coord → Coord → ℚ)
    (drivers : List Driver) (p : Passenger) :
    coreOf (withRejections dist drivers p) = coreOf p := rfl

@[simp] theorem withRejections_matched_driver (dist : Coord → Coord → ℚ)
    (drivers : List Driver) (p : Passenger) :
    (withRejections dist drivers p).matched_driver = p.matched_driver := rfl

@[simp] theorem withRejections_fare (dist : Coord → Coord → ℚ)
    (drivers : List Driver) (p : Passenger) :
    (withRejections dist drivers p).fare = p.fare := rfl

@[simp] theorem withRejections_rejection_reasons (dist : Coord → Coord → ℚ)
    (drivers : List Driver) (p : Passenger) :
    (withRejections dist drivers p).rejection_reasons =
      drivers.map fun d => rejEntry dist d p := rfl

@[simp] theorem updateMatchedFlags_matched_driver (p : Passenger) :
    (updateMatchedFlags p).matched_driver = p.matched_driver := by
  cases h : p.matched_driver <;> simp [updateMatchedFlags, h]

@[simp] theorem updateMatchedFlags_fare (p : Passenger) :
    (updateMatchedFlags p).fare = p.fare := by
  cases h : p.matched_driver <;> simp [updateMatchedFlags, h]

theorem updateMatchedFlags_of_none {p : Passenger} (h : p.matched_driver = none) :
    updateMatchedFlags p = p := by
  simp [updateMatchedFlags, h]

theorem updateMatchedFlags_of_some {p : Passenger} {did : ℕ}
    (h : p.matched_driver = some did) :
    (updateMatchedFlags p).rejection_reasons =
      p.rejection_reasons.map fun r => { r with matched := some (r.driver_id == did) } := by
  simp [updateMatchedFlags, h]

theorem updateMatchedFlags_rejection_driver_ids (p : Passenger) :
    (updateMatchedFlags p).rejection_reasons.map (fun r => r.driver_id) =
      p.rejection_reasons.map fun r => r.driver_id := by
  cases h : p.matched_driver <;> simp [updateMatchedFlags, h, List.map_map, Function.comp]

theorem engineInit_poolCore (dist : Coord → Coord → ℚ) (drivers : List Driver)
    (passengers : List Passenger) :
    PoolCore passengers (engineInit dist drivers passengers).passengers := by
  show ((passengers.map (withRejections dist drivers)).map coreOf) = passengers.map coreOf
  rw [List.map_map]
  rfl

theorem match_algorithm_drivers (dist : Coord → Coord → ℚ)
    (shuffle : List Driver → List Driver) (drivers : List Driver)
    (passengers : List Passenger) :
    (match_algorithm dist shuffle drivers passengers).drivers =
      (runDrivers dist (shuffle drivers) (engineInit dist drivers passengers)).drivers := rfl

theorem match_algorithm_details (dist : Coord → Coord → ℚ)
    (shuffle : List Driver → List Driver) (drivers : List Driver)
    (passengers : List Passenger) :
    (match_algorithm dist shuffle drivers passengers).details =
      (runDrivers dist (shuffle drivers) (engineInit dist drivers passengers)).details := rfl

theorem match_algorithm_passengers (dist : Coord → Coord → ℚ)
    (shuffle : List Driver → List Driver) (drivers : List Driver)
    (passengers : List Passenger) :
    (match_algorithm dist shuffle drivers passengers).passengers =
      (runDrivers dist (shuffle drivers)
        (engineInit dist drivers passengers)).passengers.map updateMatchedFlags := rfl

/-! ## Claim theorems -/

/-- C6 — Determinism under fixed seed: the engine's only source of
nondeterminism is the shuffle; with the shuffle's output pinned (two seeded
generators that permute the driver list identically, as two runs with the
same seed do), two runs on the same population return identical match
records and identical final driver and passenger states. -/
theorem claim_C6_determinism (dist : Coord → Coord → ℚ)
    (shuffle1 shuffle2 : List Driver → List Driver)
    (drivers : List Driver) (passengers : List Passenger)
    (hseed : shuffle1 drivers = shuffle2 drivers) :
    match_algorithm dist shuffle1 drivers passengers =
      match_algorithm dist shuffle2 drivers passengers := by
  unfold match_algorithm
  rw [hseed]

/-- A concrete distance function for witnesses: every pair at distance 0. -/
def distZero : Coord → Coord → ℚ := fun _ _ => 0

/-- A concrete driver and passenger for witnesses. -/
def witnessDriver : Driver :=
  { id := 0, origin := (0, 0), dest := (0, 1), schedule := 8,
    capacity := MAX_CAPACITY, passengers := [] }

def witnessPassenger : Passenger :=
  { id := 0, origin := (0, 0), dest := (0, 1), schedule := 8,
    matched_driver := none, pickup_distance := none, dropoff_distance := none,
    fare := 0, rejection_reasons := [] }

theorem claim_C6_determinism_witness :
    match_algorithm distZero id [witnessDriver] [witnessPassenger] =
      match_algorithm distZero id [witnessDriver] [witnessPassenger] :=
  claim_C6_determinism distZero id id [witnessDriver] [witnessPassenger] rfl

/-- C10 — Frame effect of the in-place shuffle: the driver list the engine
returns (the caller's list after `random.shuffle(drivers)` and the loop) is
in shuffled processing order, not input order, while every passenger's
rejection analysis — computed before the shuffle — is ordered by the
original pool order. -/
theorem claim_C10_shuffled_order (dist : Coord → Coord → ℚ)
    (shuffle : List Driver → List Driver) (drivers : List Driver)
    (passengers : List Passenger) :
    ((match_algorithm dist shuffle drivers passengers).drivers.map fun d => d.id) =
      ((shuffle drivers).map fun d => d.id) ∧
    ∀ p ∈ (match_algorithm dist shuffle drivers passengers).passengers,
      (p.rejection_reasons.map fun r => r.driver_id) = drivers.map fun d => d.id := by
  constructor
  · rw [match_algorithm_drivers, runDrivers_drivers_map_id]
    rfl
  · rw [match_algorithm_passengers]
    intro p hp
    rcases List.mem_map.1 hp with ⟨q, hq, rfl⟩
    rw [updateMatchedFlags_rejection_driver_ids]
    refine runDrivers_pool_forall dist (shuffle drivers) _
      (Φ := fun p => (p.rejection_reasons.map fun r => r.driver_id) =
        drivers.map fun d => d.id) ?_ ?_ q hq
    · intro p hp1
      rcases List.mem_map.1 hp1 with ⟨p0, _, rfl⟩
      rw [withRejections_rejection_reasons, List.map_map]
      rfl
    · intro did c hc
      rw [matchedPassenger_rejection_reasons]
      exact hc

/-- C9 counterexample — with an empty driver pool the visualization
fleet-occupancy statistic divides by `len(drivers) * MAX_CAPACITY = 0` and
raises `ZeroDivisionError` (modelled `none`), and with an empty passenger
pool the matched/unmatched percentage lines of `print_matching_results`
divide by `len(passengers) = 0` and raise too; none of the three yields a
defined percentage. -/
theorem claim_C9_counterexample :
    fleet_occupancy_viz [] = none ∧
    matched_pct [] = none ∧
    unmatched_pct [] = none := by
  refine ⟨?_, rfl, rfl⟩
  simp [fleet_occupancy_viz]

/-- C9 amended — only the fleet-occupancy figure of
`print_matching_results` (simulation.py line 1558) is guarded: the
`if total_capacity > 0 else 0` branch makes it total and it returns 0 both
for an empty fleet and for an empty passenger list.  The visualization
fleet occupancy and the matched/unmatched percentages are unguarded: they
are defined exactly when their denominator list is nonempty and raise
`ZeroDivisionError` (here `none`) when it is empty. -/
theorem claim_C9_division_guards (drivers : List Driver)
    (passengers : List Passenger) :
    (fleet_occupancy_viz drivers = none ↔ drivers = []) ∧
    (matched_pct passengers = none ↔ passengers = []) ∧
    (unmatched_pct passengers = none ↔ passengers = []) ∧
    fleet_occupancy_printed [] passengers = 0 ∧
    fleet_occupancy_printed drivers [] = 0 := by
  refine ⟨?_, ?_, ?_, ?_, ?_⟩
  · unfold fleet_occupancy_viz
    by_cases h : ((drivers.length : ℤ) * MAX_CAPACITY = 0)
    · rw [if_pos h]
      have hd : drivers = [] := by
        rcases mul_eq_zero.1 h with h1 | h1
        · exact List.length_eq_zero.1 (by exact_mod_cast h1)
        · exact absurd h1 (by norm_num [MAX_CAPACITY])
      simp [hd]
    · rw [if_neg h]
      have hd : drivers ≠ [] := by
        intro hd
        exact h (by simp [hd])
      simp [hd]
  · unfold matched_pct
    by_cases h : passengers.length = 0
    · rw [if_pos h]
      simp [List.length_eq_zero.1 h]
    · rw [if_neg h]
      refine iff_of_false (by simp) ?_
      intro he
      exact h (by simp [he])
  · unfold unmatched_pct
    by_cases h : passengers.length = 0
    · rw [if_pos h]
      simp [List.length_eq_zero.1 h]
    · rw [if_neg h]
      refine iff_of_false (by simp) ?_
      intro he
      exact h (by simp [he])
  · unfold fleet_occupancy_printed
    norm_num
  · unfold fleet_occupancy_printed
    by_cases h : (0 : ℤ) < (drivers.length : ℤ) * MAX_CAPACITY
    · rw [if_pos h]
      simp
    · rw [if_neg h]

theorem fresh_capInv {d : Driver}
    (h : d.capacity = MAX_CAPACITY ∧ d.passengers = []) : CapInv d := by
  rcases h with ⟨h1, h2⟩
  constructor
  · rw [h1, h2]
    simp
  · rw [h1]
    norm_num [MAX_CAPACITY]

/-- C2 — Capacity invariant: starting from freshly created drivers
(`capacity = MAX_CAPACITY`, no passengers), every driver satisfies
`capacity + len(passengers) = MAX_CAPACITY`, `capacity ≥ 0` and
`len(passengers) ≤ 4` after the engine returns, after every prefix of the
shuffled processing order, and after every single assignment inside the
driver's own turn — for every input, distance function and shuffle order. -/
theorem claim_C2_capacity_invariant (dist : Coord → Coord → ℚ)
    (shuffle : List Driver → List Driver) (drivers : List Driver)
    (passengers : List Passenger)
    (hshuffle : (shuffle drivers).Perm drivers)
    (hfresh : ∀ d ∈ drivers, d.capacity = MAX_CAPACITY ∧ d.passengers = []) :
    (∀ d ∈ (match_algorithm dist shuffle drivers passengers).drivers,
       d.capacity + d.passengers.length = MAX_CAPACITY ∧
       0 ≤ d.capacity ∧ d.passengers.length ≤ 4) ∧
    (∀ ds1 ds2, shuffle drivers = ds1 ++ ds2 →
       ∀ d ∈ (runDrivers dist ds1 (engineInit dist drivers passengers)).drivers,
         d.capacity + d.passengers.length = MAX_CAPACITY ∧
         0 ≤ d.capacity ∧ d.passengers.length ≤ 4) ∧
    (∀ ds1 dr ds2, shuffle drivers = ds1 ++ dr :: ds2 → dr.capacity ≠ 0 → ∀ k,
       (((selectedFor dist dr
             (runDrivers dist ds1 (engineInit dist drivers passengers)).passengers).take k).foldl
           assignOne
           { drv := dr
             ps := (runDrivers dist ds1 (engineInit dist drivers passengers)).passengers
             det := (runDrivers dist ds1 (engineInit dist drivers passengers)).details }).drv.capacity +
         ((((selectedFor dist dr
             (runDrivers dist ds1 (engineInit dist drivers passengers)).passengers).take k).foldl
           assignOne
           { drv := dr
             ps := (runDrivers dist ds1 (engineInit dist drivers passengers)).passengers
             det := (runDrivers dist ds1 (engineInit dist drivers passengers)).details }).drv.passengers.length : ℤ) =
         MAX_CAPACITY ∧
       0 ≤ (((selectedFor dist dr
             (runDrivers dist ds1 (engineInit dist drivers passengers)).passengers).take k).foldl
           assignOne
           { drv := dr
             ps := (runDrivers dist ds1 (engineInit dist drivers passengers)).passengers
             det := (runDrivers dist ds1 (engineInit dist drivers passengers)).details }).drv.capacity) := by
  have hM : MAX_CAPACITY = 4 := rfl
  have hprefix : ∀ ds1 ds2, shuffle drivers = ds1 ++ ds2 →
      ∀ d ∈ (runDrivers dist ds1 (engineInit dist drivers passengers)).drivers,
        d.capacity + d.passengers.length = MAX_CAPACITY ∧
        0 ≤ d.capacity ∧ d.passengers.length ≤ 4 := by
    intro ds1 ds2 hsplit d hd
    have hqueue : ∀ x ∈ ds1, CapInv x := by
      intro x hx
      refine fresh_capInv (hfresh x ?_)
      refine hshuffle.mem_iff.1 ?_
      rw [hsplit]
      exact List.mem_append_left _ hx
    have hcap := runDrivers_capInv dist ds1 (engineInit dist drivers passengers)
      hqueue (by intro x hx; cases hx) d hd
    rcases hcap with ⟨h1, h2⟩
    refine ⟨h1, h2, ?_⟩
    rw [hM] at h1
    omega
  refine ⟨?_, hprefix, ?_⟩
  · intro d hd
    rw [match_algorithm_drivers] at hd
    exact hprefix (shuffle drivers) [] (List.append_nil _).symm d hd
  · intro ds1 dr ds2 hsplit hcap k
    have hdr : dr ∈ drivers := by
      refine hshuffle.mem_iff.1 ?_
      rw [hsplit]
      exact List.mem_append_right _ (List.mem_cons_self _ _)
    rcases hfresh dr hdr with ⟨hc4, hp0⟩
    rw [foldl_assignOne_drv]
    have hlen : (((selectedFor dist dr
        (runDrivers dist ds1 (engineInit dist drivers passengers)).passengers).take k).length) ≤
        dr.capacity.toNat := by
      calc (((selectedFor dist dr _).take k).length)
          ≤ ((selectedFor dist dr _).length) := by
            rw [List.length_take]
            exact Nat.min_le_right _ _
        _ ≤ dr.capacity.toNat := selectedFor_length_le _ _ _
    constructor
    · show dr.capacity - _ + ((dr.passengers ++ _).length : ℤ) = MAX_CAPACITY
      rw [List.length_append, List.length_map, hp0, hc4, hM]
      simp only [List.length_nil]
      push_cast
      omega
    · show (0 : ℤ) ≤ dr.capacity - _
      rw [hc4, hM]
      rw [hc4, hM] at hlen
      omega

theorem claim_C2_capacity_invariant_witness :
    (∀ d ∈ (match_algorithm distZero id [witnessDriver] []).drivers,
       d.capacity + d.passengers.length = MAX_CAPACITY ∧
       0 ≤ d.capacity ∧ d.passengers.length ≤ 4) ∧
    (∀ ds1 ds2, id [witnessDriver] = ds1 ++ ds2 →
       ∀ d ∈ (runDrivers distZero ds1 (engineInit distZero [witnessDriver] [])).drivers,
         d.capacity + d.passengers.length = MAX_CAPACITY ∧
         0 ≤ d.capacity ∧ d.passengers.length ≤ 4) ∧
    (∀ ds1 dr ds2, id [witnessDriver] = ds1 ++ dr :: ds2 → dr.capacity ≠ 0 → ∀ k,
       (((selectedFor distZero dr
             (runDrivers distZero ds1 (engineInit distZero [witnessDriver] [])).passengers).take k).foldl
           assignOne
           { drv := dr
             ps := (runDrivers distZero ds1 (engineInit distZero [witnessDriver] [])).passengers
             det := (runDrivers distZero ds1 (engineInit distZero [witnessDriver] [])).details }).drv.capacity +
         ((((selectedFor distZero dr
             (runDrivers distZero ds1 (engineInit distZero [witnessDriver] [])).passengers).take k).foldl
           assignOne
           { drv := dr
             ps := (runDrivers distZero ds1 (engineInit distZero [witnessDriver] [])).passengers
             det := (runDrivers distZero ds1 (engineInit distZero [witnessDriver] [])).details }).drv.passengers.length : ℤ) =
         MAX_CAPACITY ∧
       0 ≤ (((selectedFor distZero dr
             (runDrivers distZero ds1 (engineInit distZero [witnessDriver] [])).passengers).take k).foldl
           assignOne
           { drv := dr
             ps := (runDrivers distZero ds1 (engineInit distZero [witnessDriver] [])).passengers
             det := (runDrivers distZero ds1 (engineInit distZero [witnessDriver] [])).details }).drv.capacity) :=
  claim_C2_capacity_invariant distZero id [witnessDriver] [] (List.Perm.refl _)
    (by intro d hd; rw [List.mem_singleton.1 hd]; exact ⟨rfl, rfl⟩)

/-! ## Fare constancy -/

theorem runDrivers_det_fare (dist : Coord → Coord → ℚ) (ds : List Driver)
    (st : EngineResult) (hall : ∀ mr ∈ st.details, mr.fare = ride_cost) :
    ∀ mr ∈ (runDrivers dist ds st).details, mr.fare = ride_cost := by
  induction ds generalizing st with
  | nil => exact hall
  | cons d ds ih =>
    simp only [runDrivers]
    refine ih _ ?_
    intro mr hmr
    rw [processDriver_det] at hmr
    rcases List.mem_append.1 hmr with hold | hnew
    · exact hall mr hold
    · by_cases hcap : d.capacity = 0
      · rw [if_pos hcap] at hnew
        cases hnew
      · rw [if_neg hcap] at hnew
        rcases List.mem_map.1 hnew with ⟨c, _, rfl⟩
        rfl

/-- C5 — Fare constancy: every match record's fare, and every matched
passenger's fare, equals `(PRICE_BASE / MAX_CAPACITY) + PRICE_BASE *
MARKUP_PERCENT = 45` exactly, for every match of a run and independently of
any distance, while unmatched passengers keep their initial fare of 0. -/
theorem claim_C5_fare_constancy (dist : Coord → Coord → ℚ)
    (shuffle : List Driver → List Driver) (drivers : List Driver)
    (passengers : List Passenger)
    (hinit : ∀ p ∈ passengers, p.matched_driver = none ∧ p.fare = 0) :
    ride_cost = PRICE_BASE / (MAX_CAPACITY : ℚ) + PRICE_BASE * MARKUP_PERCENT ∧
    ride_cost = 45 ∧
    (∀ mr ∈ (match_algorithm dist shuffle drivers passengers).details,
       mr.fare = ride_cost) ∧
    (∀ p ∈ (match_algorithm dist shuffle drivers passengers).passengers,
       (p.matched_driver ≠ none → p.fare = ride_cost) ∧
       (p.matched_driver = none → p.fare = 0)) := by
  refine ⟨by norm_num [ride_cost, PRICE_BASE, MAX_CAPACITY, MARKUP_PERCENT],
    by norm_num [ride_cost, PRICE_BASE, MARKUP_PERCENT], ?_, ?_⟩
  · rw [match_algorithm_details]
    exact runDrivers_det_fare dist (shuffle drivers) _ (by intro mr hmr; cases hmr)
  · rw [match_algorithm_passengers]
    intro p hp
    rcases List.mem_map.1 hp with ⟨q, hq, rfl⟩
    have hΦ : (q.matched_driver ≠ none → q.fare = ride_cost) ∧
        (q.matched_driver = none → q.fare = 0) := by
      refine runDrivers_pool_forall dist (shuffle drivers) _
        (Φ := fun p => (p.matched_driver ≠ none → p.fare = ride_cost) ∧
          (p.matched_driver = none → p.fare = 0)) ?_ ?_ q hq
      · intro p1 hp1
        rcases List.mem_map.1 hp1 with ⟨p0, hp0, rfl⟩
        rcases hinit p0 hp0 with ⟨hm, hf⟩
        constructor
        · intro hne
          exact absurd (by rw [withRejections_matched_driver]; exact hm) hne
        · intro _
          rw [withRejections_fare]
          exact hf
      · intro did c _
        constructor
        · intro _
          rfl
        · intro hmm
          cases Option.some_ne_none did (by
            rw [← matchedPassenger_matched_driver did c]
            exact hmm)
    constructor
    · intro hne
      rw [updateMatchedFlags_fare]
      exact hΦ.1 (by rw [← updateMatchedFlags_matched_driver]; exact hne)
    · intro hnone
      rw [updateMatchedFlags_fare]
      exact hΦ.2 (by rw [← updateMatchedFlags_matched_driver]; exact hnone)

theorem claim_C5_fare_constancy_witness :
    ride_cost = PRICE_BASE / (MAX_CAPACITY : ℚ) + PRICE_BASE * MARKUP_PERCENT ∧
    ride_cost = 45 ∧
    (∀ mr ∈ (match_algorithm distZero id [witnessDriver] [witnessPassenger]).details,
       mr.fare = ride_cost) ∧
    (∀ p ∈ (match_algorithm distZero id [witnessDriver] [witnessPassenger]).passengers,
       (p.matched_driver ≠ none → p.fare = ride_cost) ∧
       (p.matched_driver = none → p.fare = 0)) :=
  claim_C5_fare_constancy distZero id [witnessDriver] [witnessPassenger]
    (by intro p hp; rw [List.mem_singleton.1 hp]; exact ⟨rfl, rfl⟩)

/-! ## At most one match per passenger -/

/-- C3 — At-most-one-match: a passenger whose `matched_driver` is already
set keeps exactly that value for the rest of the run (the candidate filter
skips non-`None` passengers, and nothing ever clears the field), and — for a
pool with distinct passenger ids — no passenger is the subject of two match
records, so `matched_driver` is written at most once per run. -/
theorem claim_C3_at_most_one_match (dist : Coord → Coord → ℚ)
    (shuffle : List Driver → List Driver) (drivers : List Driver)
    (passengers : List Passenger)
    (hpids : (passengers.map fun p => p.id).Nodup) :
    (match_algorithm dist shuffle drivers passengers).passengers.length =
      passengers.length ∧
    (∀ j (h0 : j < passengers.length)
       (h1 : j < (match_algorithm dist shuffle drivers passengers).passengers.length)
       (x : ℕ),
       (passengers.get ⟨j, h0⟩).matched_driver = some x →
       ((match_algorithm dist shuffle drivers passengers).passengers.get
         ⟨j, h1⟩).matched_driver = some x) ∧
    ((match_algorithm dist shuffle drivers passengers).details.map
      fun mr => mr.passenger_id).Nodup := by
  have hlen : (match_algorithm dist shuffle drivers passengers).passengers.length =
      passengers.length := by
    rw [match_algorithm_passengers, List.length_map, runDrivers_ps_length]
    simp [engineInit]
  refine ⟨hlen, ?_, ?_⟩
  · intro j h0 h1 x hx
    have h2 : j < (engineInit dist drivers passengers).passengers.length := by
      simp [engineInit]
      exact h0
    have hinit : ((engineInit dist drivers passengers).passengers.get
        ⟨j, h2⟩).matched_driver = some x := by
      show ((passengers.map (withRejections dist drivers)).get ⟨j, _⟩).matched_driver = some x
      simp only [List.get_eq_getElem, List.getElem_map,
        withRejections_matched_driver]
      simpa [List.get_eq_getElem] using hx
    have h3 : j < (runDrivers dist (shuffle drivers)
        (engineInit dist drivers passengers)).passengers.length := by
      rw [runDrivers_ps_length]
      exact h2
    have hrun := runDrivers_matched_preserve dist (shuffle drivers)
      (engineInit dist drivers passengers) j h2 h3 x hinit
    revert h1
    rw [match_algorithm_passengers]
    intro h1
    simp only [List.get_eq_getElem, List.getElem_map,
      updateMatchedFlags_matched_driver]
    simpa [List.get_eq_getElem] using hrun
  · rw [match_algorithm_details]
    have hdp := runDrivers_detPid dist (shuffle drivers)
      (engineInit dist drivers passengers) hpids
      (engineInit_poolCore dist drivers passengers)
      ⟨by simp [engineInit], by intro mr hmr; cases hmr⟩
    exact hdp.1

theorem claim_C3_at_most_one_match_witness :
    (match_algorithm distZero id [witnessDriver] [witnessPassenger]).passengers.length =
      [witnessPassenger].length ∧
    (∀ j (h0 : j < [witnessPassenger].length)
       (h1 : j < (match_algorithm distZero id [witnessDriver] [witnessPassenger]).passengers.length)
       (x : ℕ),
       ([witnessPassenger].get ⟨j, h0⟩).matched_driver = some x →
       ((match_algorithm distZero id [witnessDriver] [witnessPassenger]).passengers.get
         ⟨j, h1⟩).matched_driver = some x) ∧
    ((match_algorithm distZero id [witnessDriver] [witnessPassenger]).details.map
      fun mr => mr.passenger_id).Nodup :=
  claim_C3_at_most_one_match distZero id [witnessDriver] [witnessPassenger] (by simp)

/-! ## Constraint soundness of every match record -/

/-- C1 — Constraint soundness: for every population (with distinct driver
and passenger ids) and every shuffle order, every match record the engine
returns stays inside the hard constraints: its recorded pickup and drop-off
distances are the driver-to-passenger distances, both are at most
`SEARCH_RADIUS_KM = 1.0`, the matched pair's schedules differ by at most one
hour, and the fare is the fixed `ride_cost`. -/
theorem claim_C1_constraint_soundness (dist : Coord → Coord → ℚ)
    (shuffle : List Driver → List Driver) (drivers : List Driver)
    (passengers : List Passenger)
    (hshuffle : (shuffle drivers).Perm drivers)
    (hdids : (drivers.map fun d => d.id).Nodup)
    (hpids : (passengers.map fun p => p.id).Nodup) :
    ∀ mr ∈ (match_algorithm dist shuffle drivers passengers).details,
      mr.pickup_dist ≤ SEARCH_RADIUS_KM ∧
      mr.dropoff_dist ≤ SEARCH_RADIUS_KM ∧
      ∀ d ∈ drivers, ∀ p ∈ passengers,
        mr.driver_id = d.id → mr.passenger_id = p.id →
          (d.schedule - p.schedule).natAbs ≤ 1 ∧
          mr.pickup_dist = dist d.origin p.origin ∧
          mr.dropoff_dist = dist d.dest p.dest ∧
          mr.fare = ride_cost := by
  intro mr hmr
  rw [match_algorithm_details] at hmr
  have hsound := @runDrivers_recordSound dist drivers passengers
    (shuffle drivers) (engineInit dist drivers passengers)
    (fun d hd => hshuffle.mem_iff.1 hd)
    (engineInit_poolCore dist drivers passengers)
    (by intro x hx; cases hx) mr hmr
  rcases hsound with ⟨d0, hd0, j, hj, hdid, hpid, hpick, hdrop, hple, hdle, hsch, hfare⟩
  refine ⟨hple, hdle, ?_⟩
  intro d hd p hp hdeq hpeq
  have hdd : d = d0 :=
    List.inj_on_of_nodup_map hdids hd hd0 (by rw [← hdeq, hdid])
  have hpp : p = passengers.get ⟨j, hj⟩ :=
    List.inj_on_of_nodup_map hpids hp (List.get_mem _ _ _) (by rw [← hpeq, hpid])
  subst hdd
  subst hpp
  exact ⟨hsch, hpick, hdrop, hfare⟩

theorem claim_C1_constraint_soundness_witness :
    ((id [witnessDriver]).Perm [witnessDriver]) ∧
    (∀ mr ∈ (match_algorithm distZero id [witnessDriver] [witnessPassenger]).details,
      mr.pickup_dist ≤ SEARCH_RADIUS_KM ∧
      mr.dropoff_dist ≤ SEARCH_RADIUS_KM ∧
      ∀ d ∈ [witnessDriver], ∀ p ∈ [witnessPassenger],
        mr.driver_id = d.id → mr.passenger_id = p.id →
          (d.schedule - p.schedule).natAbs ≤ 1 ∧
          mr.pickup_dist = distZero d.origin p.origin ∧
          mr.dropoff_dist = distZero d.dest p.dest ∧
          mr.fare = ride_cost) :=
  ⟨List.Perm.refl _,
    claim_C1_constraint_soundness distZero id [witnessDriver] [witnessPassenger]
      (List.Perm.refl _) (by simp) (by simp)⟩

/-! ## Rank correctness of one driver's turn -/

/-- C4 — Rank correctness: in a driver's turn the candidate list (built in
passenger-pool iteration order) is sorted ascending by
`pickup_distance + dropoff_distance` with a stable sort (ties keep their
candidate-list order, witnessed by the filter equation), exactly the first
`min(capacity, len(candidates))` ranked candidates are selected, every
selected candidate ranks no worse than every candidate rejected for
capacity, and the engine's turn is exactly the assignment of that selected
list. -/
theorem claim_C4_rank_correctness (dist : Coord → Coord → ℚ) (driver : Driver)
    (ps : List Passenger) (det : List MatchRecord)
    (hcap : driver.capacity ≠ 0) :
    (sortCandidates (findCandidates dist driver ps)).Pairwise
      (fun a b => rankKey a ≤ rankKey b) ∧
    (∀ k : ℚ, (sortCandidates (findCandidates dist driver ps)).filter
        (fun c => rankKey c = k) =
      (findCandidates dist driver ps).filter (fun c => rankKey c = k)) ∧
    (selectedFor dist driver ps).length =
      min driver.capacity.toNat (findCandidates dist driver ps).length ∧
    (∀ a ∈ selectedFor dist driver ps,
       ∀ b ∈ (sortCandidates (findCandidates dist driver ps)).drop
           driver.capacity.toNat,
         rankKey a ≤ rankKey b) ∧
    processDriver dist ps det driver =
      (selectedFor dist driver ps).foldl assignOne
        { drv := driver, ps := ps, det := det } := by
  refine ⟨sortCandidates_pairwise _, fun k => sortCandidates_filter_rankKey k _, ?_, ?_, ?_⟩
  · exact selectedFor_length dist driver ps
  · intro a ha b hb
    exact pairwise_take_drop (sortCandidates_pairwise _)
      driver.capacity.toNat a ha b hb
  · exact processDriver_pos dist ps det driver hcap

theorem claim_C4_rank_correctness_witness :
    (sortCandidates (findCandidates distZero witnessDriver [witnessPassenger])).Pairwise
      (fun a b => rankKey a ≤ rankKey b) ∧
    (∀ k : ℚ, (sortCandidates (findCandidates distZero witnessDriver [witnessPassenger])).filter
        (fun c => rankKey c = k) =
      (findCandidates distZero witnessDriver [witnessPassenger]).filter
        (fun c => rankKey c = k)) ∧
    (selectedFor distZero witnessDriver [witnessPassenger]).length =
      min witnessDriver.capacity.toNat
        (findCandidates distZero witnessDriver [witnessPassenger]).length ∧
    (∀ a ∈ selectedFor distZero witnessDriver [witnessPassenger],
       ∀ b ∈ (sortCandidates (findCandidates distZero witnessDriver [witnessPassenger])).drop
           witnessDriver.capacity.toNat,
         rankKey a ≤ rankKey b) ∧
    processDriver distZero [witnessPassenger] [] witnessDriver =
      (selectedFor distZero witnessDriver [witnessPassenger]).foldl assignOne
        { drv := witnessDriver, ps := [witnessPassenger], det := [] } :=
  claim_C4_rank_correctness distZero witnessDriver [witnessPassenger] []
    (by decide)

/-! ## The matched-flag refresh -/

/-- C7 (amended) — Matched-flag refresh: after the engine returns, a
*matched* passenger's rejection entries all carry the `'matched'` key, set
to `true` exactly on entries whose `driver_id` equals the matched driver's
id and `false` elsewhere; an *unmatched* passenger's entries carry no
`'matched'` key at all (the refresh loop runs only under
`if p.matched_driver:`). -/
theorem claim_C7_matched_flag_refresh (dist : Coord → Coord → ℚ)
    (shuffle : List Driver → List Driver) (drivers : List Driver)
    (passengers : List Passenger) :
    ∀ p ∈ (match_algorithm dist shuffle drivers passengers).passengers,
      (p.matched_driver = none → ∀ e ∈ p.rejection_reasons, e.matched = none) ∧
      (∀ did, p.matched_driver = some did →
        ∀ e ∈ p.rejection_reasons, e.matched = some (e.driver_id == did)) := by
  rw [match_algorithm_passengers]
  intro p hp
  rcases List.mem_map.1 hp with ⟨q, hq, rfl⟩
  have hΦ : ∀ e ∈ q.rejection_reasons, e.matched = none := by
    refine runDrivers_pool_forall dist (shuffle drivers) _
      (Φ := fun p => ∀ e ∈ p.rejection_reasons, e.matched = none) ?_ ?_ q hq
    · intro p1 hp1
      rcases List.mem_map.1 hp1 with ⟨p0, _, rfl⟩
      rw [withRejections_rejection_reasons]
      intro e he
      rcases List.mem_map.1 he with ⟨d, _, rfl⟩
      rfl
    · intro did c hc
      rw [matchedPassenger_rejection_reasons]
      exact hc
  constructor
  · intro hnone e he
    rw [updateMatchedFlags_matched_driver] at hnone
    rw [updateMatchedFlags_of_none hnone] at he
    exact hΦ e he
  · intro did hsome e he
    rw [updateMatchedFlags_matched_driver] at hsome
    rw [updateMatchedFlags_of_some hsome] at he
    rcases List.mem_map.1 he with ⟨r, _, rfl⟩
    rfl

/-- The final state of `witnessPassenger` after the witness run: matched to
driver 0 at distance 0, fare `ride_cost`, its one rejection entry flagged
matched. -/
def witnessMatchedPassenger : Passenger :=
  { id := 0, origin := (0, 0), dest := (0, 1), schedule := 8,
    matched_driver := some 0, pickup_distance := some 0,
    dropoff_distance := some 0, fare := ride_cost,
    rejection_reasons :=
      [{ driver_id := 0, pickup_distance := 0, dropoff_distance := 0,
         reasons := [], is_compatible := true, matched := some true }] }

theorem claim_C7_matched_flag_refresh_witness :
    (witnessMatchedPassenger ∈
      (match_algorithm distZero id [witnessDriver] [witnessPassenger]).passengers) ∧
    ((witnessMatchedPassenger.matched_driver = none →
        ∀ e ∈ witnessMatchedPassenger.rejection_reasons, e.matched = none) ∧
     (∀ did, witnessMatchedPassenger.matched_driver = some did →
        ∀ e ∈ witnessMatchedPassenger.rejection_reasons,
          e.matched = some (e.driver_id == did))) := by
  have hmem : witnessMatchedPassenger ∈
      (match_algorithm distZero id [witnessDriver] [witnessPassenger]).passengers := by
    with_unfolding_all decide
  exact ⟨hmem, claim_C7_matched_flag_refresh distZero id [witnessDriver]
    [witnessPassenger] witnessMatchedPassenger hmem⟩

/-- A distance function putting every pair out of range. -/
def distFar : Coord → Coord → ℚ := fun _ _ => 2

/-- C7 counterexample — an unmatched passenger's rejection entry never
receives a `'matched'` key: after this one-driver run where the driver is
out of range, the sole passenger is unmatched and its sole rejection entry
has `matched = none` (key absent), not `matched = some false` as the claim
states. -/
theorem claim_C7_matched_flag_refresh_counterexample :
    ((match_algorithm distFar id [witnessDriver] [witnessPassenger]).passengers.map
      fun p => (p.matched_driver, p.rejection_reasons.map fun e => e.matched)) =
      [(none, [none])] := by
  with_unfolding_all decide

/-! ## The full-capacity example scenario -/

/-- The distances of the §8 example scenario: three passengers at pickup
distances 0.2, 0.5 and 0.9 km from the driver's origin, all drop-offs
0.1 km from the driver's destination; every other pair is out of range. -/
def distC8 : Coord → Coord → ℚ := fun a b =>
  if a = ((0 : ℚ), (0 : ℚ)) ∧ b = ((1 : ℚ), (0 : ℚ)) then 2/10
  else if a = ((0 : ℚ), (0 : ℚ)) ∧ b = ((2 : ℚ), (0 : ℚ)) then 5/10
  else if a = ((0 : ℚ), (0 : ℚ)) ∧ b = ((3 : ℚ), (0 : ℚ)) then 9/10
  else if a = ((0 : ℚ), (1 : ℚ)) ∧ b = ((1 : ℚ), (1 : ℚ)) then 1/10
  else if a = ((0 : ℚ), (1 : ℚ)) ∧ b = ((2 : ℚ), (1 : ℚ)) then 1/10
  else if a = ((0 : ℚ), (1 : ℚ)) ∧ b = ((3 : ℚ), (1 : ℚ)) then 1/10
  else 2

def driverC8 : Driver :=
  { id := 7, origin := (0, 0), dest := (0, 1), schedule := 8,
    capacity := 2, passengers := [] }

def passengerC8a : Passenger :=
  { id := 101, origin := (1, 0), dest := (1, 1), schedule := 8,
    matched_driver := none, pickup_distance := none, dropoff_distance := none,
    fare := 0, rejection_reasons := [] }

def passengerC8b : Passenger :=
  { id := 102, origin := (2, 0), dest := (2, 1), schedule := 8,
    matched_driver := none, pickup_distance := none, dropoff_distance := none,
    fare := 0, rejection_reasons := [] }

def passengerC8c : Passenger :=
  { id := 103, origin := (3, 0), dest := (3, 1), schedule := 8,
    matched_driver := none, pickup_distance := none, dropoff_distance := none,
    fare := 0, rejection_reasons := [] }

def resultC8 : EngineResult :=
  match_algorithm distC8 id [driverC8] [passengerC8a, passengerC8b, passengerC8c]

/-- C8 (amended) — Full-capacity example scenario: with one driver of
capacity 2 and three compatible passengers at combined distances 0.3, 0.6
and 1.0 km, the engine matches the two closest-ranked passengers, the third
remains unmatched, and the driver's capacity ends at 0; however, *no*
"Driver at full capacity" (or any other) rejection reason is recorded for
the third passenger: its rejection entry for the driver keeps an empty
reason list with `is_compatible = true`, and — being unmatched — it never
receives a `'matched'` key either. -/
theorem claim_C8_full_capacity_scenario :
    (resultC8.details.map fun mr => mr.passenger_id) = [101, 102] ∧
    (resultC8.drivers.map fun d => (d.capacity, d.passengers)) = [(0, [101, 102])] ∧
    (resultC8.passengers.map fun p => p.matched_driver) = [some 7, some 7, none] ∧
    (resultC8.passengers.map fun p => p.rejection_reasons.map
      fun e => (e.driver_id, e.reasons, e.is_compatible, e.matched)) =
      [[(7, [], true, some true)], [(7, [], true, some true)], [(7, [], true, none)]] := by
  with_unfolding_all decide

/-- C8 counterexample — in the example scenario the third passenger is left
unmatched but *nothing* is recorded against the driver for it: its
rejection entry has an empty `reasons` list and no `'matched'` key, so no
"Driver at full capacity" reason (or equivalent) exists anywhere in the
result. -/
theorem claim_C8_full_capacity_scenario_counterexample :
    (resultC8.passengers.map fun p =>
      (p.matched_driver, p.rejection_reasons.map fun e => (e.reasons, e.matched))) =
      [(some 7, [([], some true)]), (some 7, [([], some true)]),
       (none, [([], none)])] := by
  with_unfolding_all decide
